import Mathlib

/-!
# Verification of the e-com-scrapper record-normalization pipeline

Shallow embedding of the pipeline's core (src/utils/normalize.py and
src/scripts/process_batch.py) together with proofs of the specification
claims.  Python values are modelled by `PyVal`; Python `dict`s are
insertion-ordered association lists with unique keys (maintained by
`Dict.insert`); `json.loads` / `json.dumps` and small pieces of the
standard library (`str.strip`, `str.splitlines`, `re.search` on the two
fixed regexes, `urllib.parse.urlparse(...).netloc`) are modelled
explicitly, faithful to their documented behaviour on the inputs the
pipeline feeds them.
-/

set_option maxRecDepth 10000

deriving instance DecidableEq for Except

namespace Ecom

/-- Model of a Python value as it occurs in this pipeline: the JSON-like
universe (`None`, `bool`, `int`, `float`, `str`, `list`, `dict`).
A float is modelled as the exact decimal `m * 10 ^ e`, kept canonical
(`m` not divisible by 10; `m = 0 → e = 0`) so that structural equality of
canonical floats coincides with numeric equality of the decimals. -/
inductive PyVal where
  | none
  | bool (b : Bool)
  | int (n : Int)
  | float (m : Int) (e : Int)
  | str (s : String)
  | list (xs : List PyVal)
  | dict (kvs : List (String × PyVal))
  deriving Inhabited

namespace PyVal

mutual

/-- Boolean structural equality on `PyVal` (the nested lists prevent a
derived `DecidableEq`, so it is built by hand). -/
def eqb (u v : PyVal) : Bool :=
  match u, v with
  | .dict d₁, .dict d₂ => eqbPairs d₁ d₂
  | .list l₁, .list l₂ => eqbElems l₁ l₂
  | .str s₁, .str s₂ => s₁ == s₂
  | .float m₁ e₁, .float m₂ e₂ => m₁ == m₂ && e₁ == e₂
  | .int n₁, .int n₂ => n₁ == n₂
  | .bool b₁, .bool b₂ => b₁ == b₂
  | .none, .none => true
  | _, _ => false

/-- Elementwise `eqb` on value lists. -/
def eqbElems (us vs : List PyVal) : Bool :=
  match us, vs with
  | u :: us', v :: vs' => eqb u v && eqbElems us' vs'
  | [], [] => true
  | _, _ => false

/-- Pairwise `eqb` on key-value lists. -/
def eqbPairs (ps qs : List (String × PyVal)) : Bool :=
  match ps, qs with
  | p :: ps', q :: qs' => p.1 == q.1 && eqb p.2 q.2 && eqbPairs ps' qs'
  | [], [] => true
  | _, _ => false

end

mutual

theorem eqb_iff_eq : ∀ u v : PyVal, eqb u v = true ↔ u = v
  | .none, v => by cases v <;> simp [eqb]
  | .bool b₁, v => by cases v <;> simp [eqb]
  | .int n₁, v => by cases v <;> simp [eqb]
  | .float m₁ e₁, v => by cases v <;> simp [eqb, and_assoc]
  | .str s₁, v => by cases v <;> simp [eqb]
  | .list l₁, v => by
    cases v with
    | list l₂ => simpa [eqb] using eqbElems_iff_eq l₁ l₂
    | none => simp [eqb]
    | bool b₂ => simp [eqb]
    | int n₂ => simp [eqb]
    | float m₂ e₂ => simp [eqb]
    | str s₂ => simp [eqb]
    | dict d₂ => simp [eqb]
  | .dict d₁, v => by
    cases v with
    | dict d₂ => simpa [eqb] using eqbPairs_iff_eq d₁ d₂
    | none => simp [eqb]
    | bool b₂ => simp [eqb]
    | int n₂ => simp [eqb]
    | float m₂ e₂ => simp [eqb]
    | str s₂ => simp [eqb]
    | list l₂ => simp [eqb]

theorem eqbElems_iff_eq : ∀ us vs : List PyVal, eqbElems us vs = true ↔ us = vs
  | u :: us', v :: vs' => by
    simp [eqbElems, eqb_iff_eq u v, eqbElems_iff_eq us' vs']
  | [], [] => by simp [eqbElems]
  | u :: us', [] => by simp [eqbElems]
  | [], v :: vs' => by simp [eqbElems]

theorem eqbPairs_iff_eq :
    ∀ ps qs : List (String × PyVal), eqbPairs ps qs = true ↔ ps = qs
  | p :: ps', q :: qs' => by
    rw [show (p :: ps' = q :: qs') ↔ (p.1 = q.1 ∧ p.2 = q.2) ∧ ps' = qs' from by
      cases p; cases q; simp [and_assoc]]
    simp [eqbPairs, eqb_iff_eq p.2 q.2, eqbPairs_iff_eq ps' qs', and_assoc]
  | [], [] => by simp [eqbPairs]
  | p :: ps', [] => by simp [eqbPairs]
  | [], q :: qs' => by simp [eqbPairs]

end

instance : DecidableEq PyVal := fun u v =>
  decidable_of_iff (eqb u v = true) (eqb_iff_eq u v)

/-- Python truthiness (`bool(v)`) on our value universe. -/
def truthy : PyVal → Bool
  | .none => false
  | .bool b => b
  | .int n => n != 0
  | .float m _ => m != 0
  | .str s => s != ""
  | .list xs => !xs.isEmpty
  | .dict kvs => !kvs.isEmpty

/-- Python `a or b` (short-circuit on truthiness). -/
def pyOr (a b : PyVal) : PyVal := if truthy a then a else b

end PyVal

/-- A Python `dict` with string keys: insertion-ordered association list.
All dicts built by the embedding have unique keys. -/
abbrev Dict := List (String × PyVal)

namespace Dict

/-- Assignment `d[k] = v` on an insertion-ordered dict: replace in place if the key
exists, else append. -/
def insert (d : Dict) (k : String) (v : PyVal) : Dict :=
  match d with
  | [] => [(k, v)]
  | (k', v') :: rest =>
    if k' = k then (k', v) :: rest else (k', v') :: insert rest k v

/-- Membership `k in d`. -/
def hasKey (d : Dict) (k : String) : Bool :=
  match d with
  | [] => false
  | (k', _) :: rest => k' = k || hasKey rest k

/-- Lookup `d.get(k)`: the value at `k`, or Python `None` when absent. -/
def get (d : Dict) (k : String) : PyVal :=
  match d with
  | [] => PyVal.none
  | (k', v) :: rest => if k' = k then v else get rest k

/-- Deletion `del d[k]` (removes the unique binding of `k` when present). -/
def erase (d : Dict) (k : String) : Dict :=
  match d with
  | [] => []
  | (k', v') :: rest => if k' = k then rest else (k', v') :: erase rest k

/-- The key list, in insertion order. -/
def keys (d : Dict) : List String := d.map Prod.fst

theorem hasKey_iff_mem_keys (d : Dict) (k : String) :
    hasKey d k = true ↔ k ∈ keys d := by
  induction d with
  | nil => simp [hasKey, keys]
  | cons kv rest ih =>
    obtain ⟨k₀, v₀⟩ := kv
    simp [hasKey, keys, ih]
    tauto

theorem mem_keys_insert (d : Dict) (k k' : String) (v : PyVal) :
    k' ∈ keys (insert d k v) ↔ (k' ∈ keys d ∨ k' = k) := by
  induction d with
  | nil => simp [insert, keys]
  | cons kv rest ih =>
    obtain ⟨k₀, v₀⟩ := kv
    by_cases h : k₀ = k
    · subst h
      rw [show insert ((k₀, v₀) :: rest) k₀ v = (k₀, v) :: rest from by simp [insert]]
      simp only [keys, List.map_cons, List.mem_cons]
      tauto
    · rw [show insert ((k₀, v₀) :: rest) k v = (k₀, v₀) :: insert rest k v from by
        simp [insert, h]]
      simp only [keys, List.map_cons, List.mem_cons] at ih ⊢
      rw [ih]
      tauto

theorem get_insert (d : Dict) (k k' : String) (v : PyVal) :
    get (insert d k v) k' = if k' = k then v else get d k' := by
  induction d with
  | nil =>
    show (if k = k' then v else PyVal.none) = _
    by_cases h : k' = k
    · subst h; simp
    · rw [if_neg (fun hh => h hh.symm), if_neg h]
      rfl
  | cons kv rest ih =>
    obtain ⟨k₀, v₀⟩ := kv
    by_cases h : k₀ = k
    · subst h
      rw [show insert ((k₀, v₀) :: rest) k₀ v = (k₀, v) :: rest from by simp [insert]]
      show (if k₀ = k' then v else get rest k') = _
      by_cases h' : k' = k₀
      · subst h'; simp [get]
      · rw [if_neg (fun hh => h' hh.symm), if_neg h']
        show get rest k' = get ((k₀, v₀) :: rest) k'
        have h'' : ¬k₀ = k' := fun hh => h' hh.symm
        show get rest k' = if k₀ = k' then v₀ else get rest k'
        rw [if_neg h'']
    · rw [show insert ((k₀, v₀) :: rest) k v = (k₀, v₀) :: insert rest k v from by
        simp [insert, h]]
      show (if k₀ = k' then v₀ else get (insert rest k v) k') = _
      rw [ih]
      by_cases h' : k₀ = k'
      · subst h'
        rw [if_pos rfl, if_neg (fun hh : k₀ = k => h hh)]
        show v₀ = get ((k₀, v₀) :: rest) k₀
        simp [get]
      · rw [if_neg h']
        by_cases h'' : k' = k
        · rw [if_pos h'', if_pos h'']
        · rw [if_neg h'', if_neg h'']
          show get rest k' = get ((k₀, v₀) :: rest) k'
          simp [get, h']

end Dict

/-! ## Python string helpers (models of `str` methods used by the sources) -/

/-- Python `str.strip()` whitespace class (ASCII part). -/
def pyWsChar (c : Char) : Bool :=
  c = ' ' || c = '\t' || c = '\n' || c = '\r' || c = '\x0b' || c = '\x0c'

/-- Strip `pyWsChar` from both ends (`str.strip()`). -/
def pyStripChars (cs : List Char) : List Char :=
  ((cs.dropWhile pyWsChar).reverse.dropWhile pyWsChar).reverse

def pyStrip (s : String) : String := String.mk (pyStripChars s.data)

/-- One line of `str.splitlines` processing: accumulate until a line break
(`\n`, `\r` or `\r\n`); a trailing break does not open a final empty line. -/
def splitlinesGo (cur : List Char) : List Char → List (List Char)
  | [] => [cur.reverse]
  | '\r' :: '\n' :: rest =>
    if rest.isEmpty then [cur.reverse] else cur.reverse :: splitlinesGo [] rest
  | '\r' :: rest =>
    if rest.isEmpty then [cur.reverse] else cur.reverse :: splitlinesGo [] rest
  | '\n' :: rest =>
    if rest.isEmpty then [cur.reverse] else cur.reverse :: splitlinesGo [] rest
  | c :: rest => splitlinesGo (c :: cur) rest

/-- Python `str.splitlines()` (on the line breaks this repository's data uses). -/
def splitlinesChars (cs : List Char) : List (List Char) :=
  if cs.isEmpty then [] else splitlinesGo [] cs

def pySplitlines (s : String) : List String := (splitlinesChars s.data).map String.mk

/-- Python `sep.join(parts)` with `sep = "\n"`. -/
def joinNl : List (List Char) → List Char
  | [] => []
  | [l] => l
  | l :: rest => l ++ '\n' :: joinNl rest

/-- Whether `cs` starts with `pat` (used for `str.startswith`). -/
def startsWithChars : List Char → List Char → Bool
  | _, [] => true
  | [], _ :: _ => false
  | c :: cs, p :: ps => c = p && startsWithChars cs ps

/-- Python `str.endswith`. -/
def endsWithChars (cs pat : List Char) : Bool :=
  startsWithChars cs.reverse pat.reverse

/-- Python `str.find(ch)`: index of the first occurrence. Python's `-1` sentinel is
modelled as `Option.none`. -/
def findCharIdx (cs : List Char) (ch : Char) : Option Nat :=
  match cs with
  | [] => Option.none
  | c :: rest =>
    if c = ch then some 0 else (findCharIdx rest ch).map (· + 1)

/-- Python `str.rfind(ch)`: index of the last occurrence. -/
def rfindCharIdx (cs : List Char) (ch : Char) : Option Nat :=
  match cs with
  | [] => Option.none
  | c :: rest =>
    match rfindCharIdx rest ch with
    | some i => some (i + 1)
    | Option.none => if c = ch then some 0 else Option.none

/-- Slicing `s[i:j]` (Python slice with `0 ≤ i ≤ j`). -/
def sliceChars (cs : List Char) (i j : Nat) : List Char := (cs.take j).drop i

/-- Python `str.lower()` (ASCII). -/
def pyLower (s : String) : String := String.mk (s.data.map Char.toLower)

/-- Python `str.replace(pat, repl)` for a non-empty `pat`: left-to-right,
non-overlapping. Fuel-based; `fuel = cs.length` always suffices because each
step consumes at least one character. -/
def replaceChars (pat repl : List Char) : Nat → List Char → List Char
  | 0, cs => cs
  | _ + 1, [] => []
  | fuel + 1, c :: rest =>
    if pat ≠ [] && startsWithChars (c :: rest) pat then
      repl ++ replaceChars pat repl fuel ((c :: rest).drop pat.length)
    else
      c :: replaceChars pat repl fuel rest

def pyReplace (s pat repl : String) : String :=
  String.mk (replaceChars pat.data repl.data s.data.length s.data)

/-- The parser's repair pass, `candidate.replace('\\"', '"')`: replace each
backslash–double-quote pair by a double quote, scanning left to right. -/
def repairChars : List Char → List Char
  | [] => []
  | [c] => [c]
  | c :: d :: rest =>
    if c = '\\' && d = '"' then '"' :: repairChars rest
    else c :: repairChars (d :: rest)

/-! ## Model of strict `json.loads`

Modelled from the Python standard library's `json.loads` (strict mode):
RFC 8259 grammar, rejecting raw control characters and invalid escapes in
strings, trailing garbage, and leading zeros.  Numbers without fraction or
exponent decode to Python `int`, others to `float` (modelled as `ℚ`).
Duplicate object keys follow Python `dict` semantics (last value wins, first
position kept), which `Dict.insert` implements. -/

/-- JSON whitespace (`json.loads` skips exactly these). -/
def jsonWsChar (c : Char) : Bool :=
  c = ' ' || c = '\t' || c = '\n' || c = '\r'

def skipWs (cs : List Char) : List Char := cs.dropWhile jsonWsChar

def digitVal (c : Char) : Nat := c.toNat - '0'.toNat

def natOfDigits (ds : List Char) : Nat :=
  ds.foldl (fun acc d => acc * 10 + digitVal d) 0

/-- Strip factors of 10 from `m` into `e` (fuel-driven, `fuel = m.natAbs`
always suffices). -/
def decNormAux : Nat → Int → Int → Int × Int
  | 0, m, e => (m, e)
  | fuel + 1, m, e =>
    if m ≠ 0 ∧ m % 10 = 0 then decNormAux fuel (m / 10) (e + 1) else (m, e)

/-- Canonical form of the decimal `m * 10 ^ e`: mantissa freed of trailing
zeros, and zero is `(0, 0)`. -/
def decNorm (m e : Int) : Int × Int :=
  if m = 0 then (0, 0) else decNormAux m.natAbs m e

/-- The canonical `PyVal.float` for the decimal `m * 10 ^ e`. -/
def PyVal.mkFloat (m e : Int) : PyVal :=
  let n := decNorm m e
  PyVal.float n.1 n.2

/-- Integer part of a JSON number: `0`, or a nonzero digit followed by
digits (leading zeros rejected). Returns the value and the rest. -/
def parseIntPart : List Char → Option (Nat × List Char)
  | [] => Option.none
  | c :: rest =>
    if c = '0' then some (0, rest)
    else if c.isDigit then
      match rest.span Char.isDigit with
      | (ds, rest') => some (natOfDigits (c :: ds), rest')
    else Option.none

/-- Fraction part: consumes `.digits` only when at least one digit follows
the dot; returns (fraction value, number of fraction digits, rest). -/
def parseFracPart (cs : List Char) : Nat × Nat × List Char :=
  match cs with
  | '.' :: rest =>
    match rest.span Char.isDigit with
    | ([], _) => (0, 0, cs)
    | (ds, rest') => (natOfDigits ds, ds.length, rest')
  | _ => (0, 0, cs)

/-- Exponent part: consumes `[eE][+-]?digits` only when well-formed;
returns (signed exponent, rest). -/
def parseExpPart (cs : List Char) : Int × List Char :=
  match cs with
  | c :: rest =>
    if c = 'e' || c = 'E' then
      let (sgn, rest₁) : Int × List Char :=
        match rest with
        | '+' :: r => (1, r)
        | '-' :: r => (-1, r)
        | _ => (1, rest)
      match rest₁.span Char.isDigit with
      | ([], _) => (0, cs)
      | (ds, rest') => (sgn * (natOfDigits ds : Int), rest')
    else (0, cs)
  | [] => (0, cs)

/-- The magnitude of a JSON number token: `int` when no fraction/exponent
is consumed, `float` otherwise. -/
def parseNumMag (cs : List Char) : Option (PyVal × List Char) :=
  match parseIntPart cs with
  | Option.none => Option.none
  | some ipp =>
    let ip := ipp.1
    let cs₂ := ipp.2
    let f := parseFracPart cs₂
    let fv := f.1
    let fk := f.2.1
    let cs₃ := f.2.2
    let ep := parseExpPart cs₃
    let ex := ep.1
    let cs₄ := ep.2
    if fk = 0 ∧ cs₃ = cs₄ then some (PyVal.int (ip : Int), cs₂)
    else some (PyVal.mkFloat ((ip * 10 ^ fk + fv : Nat) : Int) (ex - (fk : Int)), cs₄)

/-- Negation of a parsed number magnitude (canonical form is preserved). -/
def pyNegate : PyVal → PyVal
  | PyVal.int n => PyVal.int (-n)
  | PyVal.float m e => PyVal.float (-m) e
  | v => v

/-- A JSON number token with optional leading minus sign. -/
def parseNumber (cs : List Char) : Option (PyVal × List Char) :=
  match cs with
  | [] => Option.none
  | c :: r =>
    if c = '-' then (parseNumMag r).map (fun p => (pyNegate p.1, p.2))
    else parseNumMag (c :: r)

def hexVal (c : Char) : Option Nat :=
  if c.isDigit then some (digitVal c)
  else if 'a' ≤ c && c ≤ 'f' then some (c.toNat - 'a'.toNat + 10)
  else if 'A' ≤ c && c ≤ 'F' then some (c.toNat - 'A'.toNat + 10)
  else Option.none

/-- Body of a JSON string (opening quote already consumed): plain chars
until the closing quote, with the standard escapes.  Raw control
characters and bad escapes are rejected, as `json.loads` (strict) does. -/
def parseStringBody : List Char → Option (List Char × List Char)
  | [] => Option.none
  | '"' :: rest => some ([], rest)
  | '\\' :: e :: rest =>
    let simpleEsc : Option Char :=
      if e = '"' then some '"'
      else if e = '\\' then some '\\'
      else if e = '/' then some '/'
      else if e = 'b' then some '\x08'
      else if e = 'f' then some '\x0c'
      else if e = 'n' then some '\n'
      else if e = 'r' then some '\r'
      else if e = 't' then some '\t'
      else Option.none
    match simpleEsc with
    | some c => (parseStringBody rest).map (fun p => (c :: p.1, p.2))
    | Option.none =>
      if e = 'u' then
        match rest with
        | h₁ :: h₂ :: h₃ :: h₄ :: rest' =>
          match hexVal h₁, hexVal h₂, hexVal h₃, hexVal h₄ with
          | some a, some b, some c, some d =>
            (parseStringBody rest').map
              (fun p => (Char.ofNat (((a * 16 + b) * 16 + c) * 16 + d) :: p.1, p.2))
          | _, _, _, _ => Option.none
        | _ => Option.none
      else Option.none
  | c :: rest =>
    if c.toNat < 0x20 then Option.none
    else (parseStringBody rest).map (fun p => (c :: p.1, p.2))

mutual

/-- One JSON value, with fuel (every recursive call strictly decreases the
fuel and consumes input; `length + 2` fuel at top level is sufficient). -/
def parseValue : Nat → List Char → Option (PyVal × List Char)
  | 0, _ => Option.none
  | fuel + 1, cs =>
    match skipWs cs with
    | [] => Option.none
    | c :: rest =>
      if c = '{' then
        match parseObjItems fuel rest with
        | some (kvs, r) => some (PyVal.dict kvs, r)
        | Option.none => Option.none
      else if c = '[' then
        match parseArrItems fuel rest with
        | some (xs, r) => some (PyVal.list xs, r)
        | Option.none => Option.none
      else if c = '"' then
        match parseStringBody rest with
        | some (s, r) => some (PyVal.str (String.mk s), r)
        | Option.none => Option.none
      else if c = 't' then
        match rest with
        | 'r' :: 'u' :: 'e' :: r => some (PyVal.bool true, r)
        | _ => Option.none
      else if c = 'f' then
        match rest with
        | 'a' :: 'l' :: 's' :: 'e' :: r => some (PyVal.bool false, r)
        | _ => Option.none
      else if c = 'n' then
        match rest with
        | 'u' :: 'l' :: 'l' :: r => some (PyVal.none, r)
        | _ => Option.none
      else parseNumber (c :: rest)

/-- Object members after `{`: either an immediate `}` or a member list. -/
def parseObjItems : Nat → List Char → Option (Dict × List Char)
  | 0, _ => Option.none
  | fuel + 1, cs =>
    match skipWs cs with
    | '}' :: r => some ([], r)
    | _ => parseObjMembers fuel [] cs

/-- Members `"key": value` separated by commas, ending at `}`. -/
def parseObjMembers : Nat → Dict → List Char → Option (Dict × List Char)
  | 0, _, _ => Option.none
  | fuel + 1, acc, cs =>
    match skipWs cs with
    | '"' :: rest =>
      match parseStringBody rest with
      | some (k, r₁) =>
        match skipWs r₁ with
        | ':' :: r₂ =>
          match parseValue fuel r₂ with
          | some (v, r₃) =>
            let acc' := Dict.insert acc (String.mk k) v
            match skipWs r₃ with
            | ',' :: r₄ => parseObjMembers fuel acc' r₄
            | '}' :: r₄ => some (acc', r₄)
            | _ => Option.none
          | Option.none => Option.none
        | _ => Option.none
      | Option.none => Option.none
    | _ => Option.none

/-- Array items after `[`: either an immediate `]` or an item list. -/
def parseArrItems : Nat → List Char → Option (List PyVal × List Char)
  | 0, _ => Option.none
  | fuel + 1, cs =>
    match skipWs cs with
    | ']' :: r => some ([], r)
    | _ => parseArrMembers fuel [] cs

/-- Array members separated by commas, ending at `]`. -/
def parseArrMembers : Nat → List PyVal → List Char → Option (List PyVal × List Char)
  | 0, _, _ => Option.none
  | fuel + 1, acc, cs =>
    match parseValue fuel cs with
    | some (v, r) =>
      match skipWs r with
      | ',' :: r₂ => parseArrMembers fuel (acc ++ [v]) r₂
      | ']' :: r₂ => some (acc ++ [v], r₂)
      | _ => Option.none
    | Option.none => Option.none

end

/-- Model of `json.loads` on a character list: parse one value, then require only
whitespace to remain. -/
def jsonLoadsChars (cs : List Char) : Option PyVal :=
  match parseValue (cs.length + 2) cs with
  | some (v, r) => if skipWs r = [] then some v else Option.none
  | Option.none => Option.none

/-- Model of Python `json.loads` on a string. -/
def jsonLoads (s : String) : Option PyVal := jsonLoadsChars s.data

/-! ## Model of `json.dumps(..., ensure_ascii=False)`

Default separators (`", "` between items, `": "` after keys); strings keep
non-ASCII characters raw and escape `"`, `\`, and control characters.
Floats are rendered as plain decimals (Python's `repr` shortest-roundtrip
rendering agrees on the decimals this pipeline produces). -/

def hexDigitChar (n : Nat) : Char :=
  if n < 10 then Char.ofNat ('0'.toNat + n) else Char.ofNat ('a'.toNat + n - 10)

def escapeChar (c : Char) : List Char :=
  if c = '"' then ['\\', '"']
  else if c = '\\' then ['\\', '\\']
  else if c = '\n' then ['\\', 'n']
  else if c = '\t' then ['\\', 't']
  else if c = '\r' then ['\\', 'r']
  else if c = '\x08' then ['\\', 'b']
  else if c = '\x0c' then ['\\', 'f']
  else if c.toNat < 0x20 then
    ['\\', 'u', '0', '0', hexDigitChar (c.toNat / 16), hexDigitChar (c.toNat % 16)]
  else [c]

def dumpsStr (s : String) : String :=
  "\"" ++ String.mk (s.data.map escapeChar).flatten ++ "\""

/-- Decimal rendering of the float `m * 10 ^ e`. -/
def floatRepr (m e : Int) : String :=
  let sign := if m < 0 then "-" else ""
  let ds := toString m.natAbs
  if 0 ≤ e then sign ++ ds ++ String.mk (List.replicate e.toNat '0') ++ ".0"
  else
    let k := (-e).toNat
    let n := ds.length
    if k < n then sign ++ ds.take (n - k) ++ "." ++ ds.drop (n - k)
    else sign ++ "0." ++ String.mk (List.replicate (k - n) '0') ++ ds

mutual

/-- Model of `json.dumps(v, ensure_ascii=False)`. -/
def jsonDumps : PyVal → String
  | .none => "null"
  | .bool b => if b then "true" else "false"
  | .int n => toString n
  | .float m e => floatRepr m e
  | .str s => dumpsStr s
  | .list xs => "[" ++ dumpsList xs ++ "]"
  | .dict kvs => "\x7b" ++ dumpsKVs kvs ++ "\x7d"

def dumpsList : List PyVal → String
  | [] => ""
  | [x] => jsonDumps x
  | x :: y :: rest => jsonDumps x ++ ", " ++ dumpsList (y :: rest)

def dumpsKVs : List (String × PyVal) → String
  | [] => ""
  | [(k, v)] => dumpsStr k ++ ": " ++ jsonDumps v
  | (k, v) :: kv :: rest => dumpsStr k ++ ": " ++ jsonDumps v ++ ", " ++ dumpsKVs (kv :: rest)

end

/-! ## The Output Parser/Repairer (`_extract_json_from_content`,
src/scripts/process_batch.py lines 77-118) -/

/-- The common front end of the recovery procedure: empty input is
rejected, the input is stripped, a leading-and-trailing triple-backtick
fence is removed by dropping the first and last line (when there are at
least three lines), and the candidate is the substring from the first `{`
to the last `}` when the latter strictly follows the former, else the
whole text. -/
def candidateOf (content : String) : Option (List Char) :=
  if content = "" then Option.none
  else
    let txt := pyStripChars content.data
    let txt :=
      if startsWithChars txt ['`', '`', '`'] && endsWithChars txt ['`', '`', '`'] then
        let parts := splitlinesChars txt
        if 3 ≤ parts.length then pyStripChars (joinNl (parts.drop 1).dropLast) else txt
      else txt
    match findCharIdx txt '{', rfindCharIdx txt '}' with
    | some first, some last =>
      if first < last then some (sliceChars txt first (last + 1)) else some txt
    | _, _ => some txt

/-- The repair pass: replace `\"` by `"`, reparse, and accept only a
mapping. -/
def repairPass (cand : List Char) : Option Dict :=
  match jsonLoadsChars (repairChars cand) with
  | some (PyVal.dict m) => some m
  | _ => Option.none

/-- Function `_extract_json_from_content`: strict parse of the candidate; a dict is
returned, a non-empty list with a dict first element returns that element,
any other successfully parsed shape returns `None`; only on a parse
*exception* is the one repair pass (`\"` → `"`) attempted, and only a dict
from the reparse is returned. -/
def extract_json_from_content (content : String) : Option Dict :=
  match candidateOf content with
  | Option.none => Option.none
  | some cand =>
    match jsonLoadsChars cand with
    | some (PyVal.dict m) => some m
    | some (PyVal.list (PyVal.dict m :: _)) => some m
    | some (PyVal.list _) => Option.none
    | some _ => Option.none
    | Option.none => repairPass cand

/-- The §4.4 procedure as the specification words it: identical to
`extract_json_from_content` except that *any* parsed shape other than a
mapping or a dict-headed list "is treated as failure and the procedure
continues to the repair pass". -/
def extract_json_spec (content : String) : Option Dict :=
  match candidateOf content with
  | Option.none => Option.none
  | some cand =>
    match jsonLoadsChars cand with
    | some (PyVal.dict m) => some m
    | some (PyVal.list (PyVal.dict m :: _)) => some m
    | _ => repairPass cand

/-! ## The code's parse dispatch and the spec's repair continuation agree

The specification's §4.4 procedure repairs after *any* non-mapping parse
result, while the code repairs only after a parse exception.  The two are
extensionally equal: a candidate whose strict parse succeeds with a
non-mapping starts (after whitespace) with a character other than `{`, the
repair pass cannot change that first character, and a reparse can only
produce a mapping from a candidate starting with `{`. -/

theorem parseIntPart_head (cs : List Char) (p : Nat × List Char)
    (h : parseIntPart cs = some p) : ∃ c rest, cs = c :: rest ∧ c.isDigit := by
  match cs with
  | [] => simp [parseIntPart] at h
  | c :: rest =>
    refine ⟨c, rest, rfl, ?_⟩
    by_cases h0 : c = '0'
    · subst h0; decide
    · by_cases hd : c.isDigit
      · exact hd
      · simp [parseIntPart, h0, hd] at h

theorem parseNumMag_head (cs : List Char) (p : PyVal × List Char)
    (h : parseNumMag cs = some p) : ∃ c rest, cs = c :: rest ∧ c.isDigit := by
  unfold parseNumMag at h
  rcases hip : parseIntPart cs with _ | q
  · rw [hip] at h; simp at h
  · exact parseIntPart_head cs q hip

theorem parseNumMag_shape (cs : List Char) (v : PyVal) (r : List Char)
    (h : parseNumMag cs = some (v, r)) :
    (∃ n, v = PyVal.int n) ∨ (∃ m e, v = PyVal.float m e) := by
  unfold parseNumMag at h
  rcases hip : parseIntPart cs with _ | ipp <;> rw [hip] at h
  · simp at h
  · dsimp only at h
    split at h <;> simp only [Option.some.injEq, Prod.mk.injEq] at h
    · exact Or.inl ⟨ipp.1, h.1.symm⟩
    · exact Or.inr ⟨_, _, by rw [← h.1]; rfl⟩

theorem pyNegate_shape (v : PyVal)
    (h : (∃ n, v = PyVal.int n) ∨ (∃ m e, v = PyVal.float m e)) :
    (∃ n, pyNegate v = PyVal.int n) ∨ (∃ m e, pyNegate v = PyVal.float m e) := by
  rcases h with ⟨n, rfl⟩ | ⟨m, e, rfl⟩
  · exact Or.inl ⟨-n, rfl⟩
  · exact Or.inr ⟨-m, e, rfl⟩

theorem parseNumber_head (cs : List Char) (p : PyVal × List Char)
    (h : parseNumber cs = some p) :
    ∃ c rest, cs = c :: rest ∧ (c = '-' ∨ c.isDigit) := by
  match cs with
  | [] => simp [parseNumber] at h
  | c :: rest =>
    refine ⟨c, rest, rfl, ?_⟩
    by_cases hm : c = '-'
    · exact Or.inl hm
    · right
      rw [parseNumber, if_neg hm] at h
      obtain ⟨c', rest', heq, hd⟩ := parseNumMag_head _ _ h
      cases heq; exact hd

theorem parseNumber_shape (cs : List Char) (v : PyVal) (r : List Char)
    (h : parseNumber cs = some (v, r)) :
    (∃ n, v = PyVal.int n) ∨ (∃ m e, v = PyVal.float m e) := by
  match cs with
  | [] => simp [parseNumber] at h
  | c :: rest =>
    rw [parseNumber] at h
    by_cases hm : c = '-'
    · rw [if_pos hm] at h
      rcases hq : parseNumMag rest with _ | ⟨w, r'⟩ <;> rw [hq] at h
      · simp at h
      · simp at h
        obtain ⟨hv, -⟩ := h
        exact hv ▸ pyNegate_shape w (parseNumMag_shape rest w r' hq)
    · rw [if_neg hm] at h
      exact parseNumMag_shape _ v r h

/-- Unfolding `skipWs` on a cons. -/
theorem skipWs_cons (c : Char) (l : List Char) :
    skipWs (c :: l) = if jsonWsChar c then skipWs l else c :: l := by
  simp [skipWs, List.dropWhile_cons]

/-- The parser's top dispatch: a successful parse means the text (after
whitespace) starts with a non-backslash character, and the result is a
mapping exactly when that character is `{`. -/
theorem parseValue_dict_head (fuel : Nat) (cs : List Char) (v : PyVal) (r : List Char)
    (h : parseValue fuel cs = some (v, r)) :
    ∃ c rest, skipWs cs = c :: rest ∧ c ≠ '\\' ∧ ((∃ m, v = PyVal.dict m) ↔ c = '{') := by
  match fuel with
  | 0 => simp [parseValue] at h
  | f + 1 =>
    rw [parseValue] at h
    rcases hsk : skipWs cs with _ | ⟨c, rest⟩ <;> rw [hsk] at h
    · simp at h
    · dsimp only at h
      refine ⟨c, rest, rfl, ?_⟩
      split_ifs at h with h1 h2 h3 h4 h5 h6
      · subst h1
        refine ⟨by decide, ?_⟩
        rcases ho : parseObjItems f rest with _ | ⟨kvs, r'⟩ <;> rw [ho] at h
        · simp at h
        · simp only [Option.some.injEq, Prod.mk.injEq] at h
          exact ⟨fun _ => rfl, fun _ => ⟨kvs, h.1.symm⟩⟩
      · subst h2
        refine ⟨by decide, ?_⟩
        rcases ho : parseArrItems f rest with _ | ⟨xs, r'⟩ <;> rw [ho] at h
        · simp at h
        · simp only [Option.some.injEq, Prod.mk.injEq] at h
          obtain ⟨hv, -⟩ := h
          refine ⟨fun ⟨m, hm⟩ => ?_, fun hc => absurd hc (by decide)⟩
          rw [← hv] at hm; cases hm
      · subst h3
        refine ⟨by decide, ?_⟩
        rcases ho : parseStringBody rest with _ | ⟨s, r'⟩ <;> rw [ho] at h
        · simp at h
        · simp only [Option.some.injEq, Prod.mk.injEq] at h
          obtain ⟨hv, -⟩ := h
          refine ⟨fun ⟨m, hm⟩ => ?_, fun hc => absurd hc (by decide)⟩
          rw [← hv] at hm; cases hm
      · subst h4
        refine ⟨by decide, ?_⟩
        split at h
        · simp only [Option.some.injEq, Prod.mk.injEq] at h
          obtain ⟨hv, -⟩ := h
          refine ⟨fun ⟨m, hm⟩ => ?_, fun hc => absurd hc (by decide)⟩
          rw [← hv] at hm; cases hm
        · simp at h
      · subst h5
        refine ⟨by decide, ?_⟩
        split at h
        · simp only [Option.some.injEq, Prod.mk.injEq] at h
          obtain ⟨hv, -⟩ := h
          refine ⟨fun ⟨m, hm⟩ => ?_, fun hc => absurd hc (by decide)⟩
          rw [← hv] at hm; cases hm
        · simp at h
      · subst h6
        refine ⟨by decide, ?_⟩
        split at h
        · simp only [Option.some.injEq, Prod.mk.injEq] at h
          obtain ⟨hv, -⟩ := h
          refine ⟨fun ⟨m, hm⟩ => ?_, fun hc => absurd hc (by decide)⟩
          rw [← hv] at hm; cases hm
        · simp at h
      · obtain ⟨c', rest', heq, hd⟩ := parseNumber_head _ _ h
        injection heq with hc1 hrest1
        subst hc1
        constructor
        · intro hbs
          subst hbs
          rcases hd with hd | hd
          · exact absurd hd (by decide)
          · exact absurd hd (by decide)
        · constructor
          · rintro ⟨m, hm⟩
            rcases parseNumber_shape _ _ _ h with ⟨n, hv⟩ | ⟨mm, ee, hv⟩ <;>
              rw [hv] at hm <;> cases hm
          · intro hc; exact absurd hc h1

/-- Lemma: `skipWs` commutes with the repair pass (the whitespace classes and the
repaired characters are disjoint). -/
theorem skipWs_repairChars (cs : List Char) :
    skipWs (repairChars cs) = repairChars (skipWs cs) := by
  induction cs using repairChars.induct with
  | case1 => rfl
  | case2 c =>
    show skipWs [c] = repairChars (skipWs [c])
    rw [show ([c] : List Char) = c :: [] from rfl, skipWs_cons]
    by_cases hw : jsonWsChar c = true
    · simp [hw, skipWs, repairChars]
    · simp [hw, repairChars]
  | case3 c d rest hcd ih =>
    obtain ⟨hc, hd⟩ : c = '\\' ∧ d = '"' := by simpa using hcd
    subst hc; subst hd
    have h1 : repairChars ('\\' :: '"' :: rest) = '"' :: repairChars rest := by
      rw [repairChars]; simp
    have h2 : jsonWsChar '\\' = false := by decide
    have h3 : jsonWsChar '"' = false := by decide
    rw [h1, skipWs_cons, skipWs_cons, h2, h3]
    simp [h1]
  | case4 c d rest hcd ih =>
    have hrw : repairChars (c :: d :: rest) = c :: repairChars (d :: rest) := by
      rw [repairChars, if_neg (by simpa using hcd)]
    by_cases hw : jsonWsChar c = true
    · have hsk : skipWs (c :: d :: rest) = skipWs (d :: rest) := by
        rw [skipWs_cons, if_pos hw]
      rw [hrw, hsk, ← ih, skipWs_cons, if_pos hw]
    · have hsk : skipWs (c :: d :: rest) = c :: d :: rest := by
        rw [skipWs_cons, if_neg hw]
      rw [hrw, hsk, hrw, skipWs_cons, if_neg hw]

/-- Repairing a text that starts with a non-backslash character keeps that
first character. -/
theorem repairChars_cons_head (c : Char) (rest : List Char) (hc : c ≠ '\\') :
    ∃ t, repairChars (c :: rest) = c :: t := by
  cases rest with
  | nil => exact ⟨[], rfl⟩
  | cons d rest' =>
    refine ⟨repairChars (d :: rest'), ?_⟩
    rw [repairChars, if_neg (by simp [hc])]

theorem jsonLoadsChars_some (cs : List Char) (v : PyVal)
    (h : jsonLoadsChars cs = some v) :
    ∃ r, parseValue (cs.length + 2) cs = some (v, r) := by
  unfold jsonLoadsChars at h
  rcases hp : parseValue (cs.length + 2) cs with _ | ⟨w, r⟩ <;> rw [hp] at h
  · simp at h
  · dsimp only at h
    split_ifs at h with hws
    simp only [Option.some.injEq] at h
    subst h
    exact ⟨r, rfl⟩

/-- If the strict parse of `cs` succeeds with a non-mapping, the repair
pass cannot produce a mapping: the first meaningful character is unchanged
and is not `{`. -/
theorem loads_repair_not_dict (cs : List Char) (v : PyVal)
    (h : jsonLoadsChars cs = some v) (hv : ∀ m, v ≠ PyVal.dict m) :
    ∀ m, jsonLoadsChars (repairChars cs) ≠ some (PyVal.dict m) := by
  intro m hm
  obtain ⟨r, hp⟩ := jsonLoadsChars_some cs v h
  obtain ⟨c, rest, hsk, hbs, hiff⟩ := parseValue_dict_head _ _ _ _ hp
  have hcne : c ≠ '{' := by
    intro hc
    obtain ⟨m', hm'⟩ := hiff.mpr hc
    exact hv m' hm'
  obtain ⟨r', hp'⟩ := jsonLoadsChars_some _ _ hm
  obtain ⟨c', rest', hsk', hbs', hiff'⟩ := parseValue_dict_head _ _ _ _ hp'
  have hc' : c' = '{' := hiff'.mp ⟨m, rfl⟩
  obtain ⟨t, ht⟩ := repairChars_cons_head c rest hbs
  have hr : skipWs (repairChars cs) = c :: t := by
    rw [skipWs_repairChars, hsk, ht]
  rw [hr] at hsk'
  injection hsk' with h1 h2
  exact hcne (h1.trans hc')

theorem repairPass_of_parsed (cand : List Char) (v : PyVal)
    (h : jsonLoadsChars cand = some v) (hv : ∀ m, v ≠ PyVal.dict m) :
    repairPass cand = Option.none := by
  unfold repairPass
  rcases hq : jsonLoadsChars (repairChars cand) with _ | w
  · rfl
  · cases w with
    | dict m => exact absurd hq (loads_repair_not_dict cand v h hv m)
    | none => rfl
    | bool b => rfl
    | int n => rfl
    | float m e => rfl
    | str s => rfl
    | list xs => rfl

/-- The §4.4 procedure as worded by the spec and the code's
`_extract_json_from_content` agree on every input. -/
theorem extract_json_eq_spec (content : String) :
    extract_json_spec content = extract_json_from_content content := by
  unfold extract_json_spec extract_json_from_content
  rcases hc : candidateOf content with _ | cand
  · rfl
  · dsimp only
    rcases hp : jsonLoadsChars cand with _ | v
    · rfl
    · cases v with
      | dict m => rfl
      | list xs =>
        cases xs with
        | nil => exact repairPass_of_parsed cand _ hp (fun m hm => by cases hm)
        | cons x xs' =>
          cases x with
          | dict m => rfl
          | none => exact repairPass_of_parsed cand _ hp (fun m hm => by cases hm)
          | bool b => exact repairPass_of_parsed cand _ hp (fun m hm => by cases hm)
          | int n => exact repairPass_of_parsed cand _ hp (fun m hm => by cases hm)
          | float mm e => exact repairPass_of_parsed cand _ hp (fun m hm => by cases hm)
          | str s => exact repairPass_of_parsed cand _ hp (fun m hm => by cases hm)
          | list ys => exact repairPass_of_parsed cand _ hp (fun m hm => by cases hm)
      | none => exact repairPass_of_parsed cand _ hp (fun m hm => by cases hm)
      | bool b => exact repairPass_of_parsed cand _ hp (fun m hm => by cases hm)
      | int n => exact repairPass_of_parsed cand _ hp (fun m hm => by cases hm)
      | float mm e => exact repairPass_of_parsed cand _ hp (fun m hm => by cases hm)
      | str s => exact repairPass_of_parsed cand _ hp (fun m hm => by cases hm)

/-! ## The Schema Mapper's key resolution (`_value_for_header`,
src/scripts/process_batch.py lines 121-152) -/

/-- Function `_value_for_header`: tolerant lookup of a header column in the parsed
mapping.  Precedence: exact; the lowercased column as a literal key; the
column with spaces replaced by underscores, then its lowercase; the column
with spaces removed, then its lowercase; finally a linear scan comparing
keys case-insensitively (after stripping).  No match gives `None`. -/
def value_for_header (parsed : Dict) (header_key : String) : PyVal :=
  if parsed.hasKey header_key then parsed.get header_key
  else
    let lk := pyLower header_key
    if parsed.hasKey lk then parsed.get lk
    else
      let alt1 := pyReplace header_key " " "_"
      if parsed.hasKey alt1 then parsed.get alt1
      else if parsed.hasKey (pyLower alt1) then parsed.get (pyLower alt1)
      else
        let alt2 := pyReplace header_key " " ""
        if parsed.hasKey alt2 then parsed.get alt2
        else if parsed.hasKey (pyLower alt2) then parsed.get (pyLower alt2)
        else
          match parsed.find? (fun kv => pyLower (pyStrip kv.1) == lk) with
          | some kv => kv.2
          | Option.none => PyVal.none

/-- The resolution procedure as the claim words it: exact; case-insensitive;
space-to-underscore variant *in both directions*; space-removed variant;
linear case-insensitive scan. -/
def resolve_spec (parsed : Dict) (col : String) : PyVal :=
  if parsed.hasKey col then parsed.get col
  else
    match parsed.find? (fun kv => pyLower kv.1 == pyLower col) with
    | some kv => kv.2
    | Option.none =>
      let alt1 := pyReplace col " " "_"
      let alt1b := pyReplace col "_" " "
      if parsed.hasKey alt1 then parsed.get alt1
      else if parsed.hasKey alt1b then parsed.get alt1b
      else
        let alt2 := pyReplace col " " ""
        if parsed.hasKey alt2 then parsed.get alt2
        else
          match parsed.find? (fun kv => pyLower (pyStrip kv.1) == pyLower col) with
          | some kv => kv.2
          | Option.none => PyVal.none

/-! ## Content extraction from one batch-output line
(`_extract_content_from_line`, src/scripts/process_batch.py lines 24-74) -/

/-- Lookup `v.get(k)`: Python `.get` raises `AttributeError` on non-dicts. -/
def egets (v : PyVal) (k : String) : Except Unit PyVal :=
  match v with
  | PyVal.dict kvs => Except.ok (Dict.get kvs k)
  | _ => Except.error ()

/-- Is `v` a string containing `{`, `]` or `"`? -/
def strWithJsonChar (v : PyVal) : Bool :=
  match v with
  | PyVal.str s => s.data.contains '{' || s.data.contains ']' || s.data.contains '"'
  | _ => false

mutual

/-- The deep fallback `search_for_content`: walk nested dicts/lists for a
key literally named "content" whose string value contains `{`, `]` or `"`. -/
def search_for_content : PyVal → Option PyVal
  | PyVal.dict kvs => searchKVs kvs
  | _ => Option.none

def searchKVs : List (String × PyVal) → Option PyVal
  | [] => Option.none
  | (k, v) :: rest =>
    if k = "content" ∧ strWithJsonChar v then some v
    else
      match v with
      | PyVal.dict kvs' =>
        match searchKVs kvs' with
        | some f => some f
        | Option.none => searchKVs rest
      | PyVal.list xs =>
        match searchList xs with
        | some f => some f
        | Option.none => searchKVs rest
      | _ => searchKVs rest

def searchList : List PyVal → Option PyVal
  | [] => Option.none
  | x :: rest =>
    match search_for_content x with
    | some f => some f
    | Option.none => searchList rest

end

/-- The body of `_extract_content_from_line`'s `try` block; an exception
(`Except.error`) is caught by the enclosing handler. -/
def extractContentTry (obj : PyVal) : Except Unit (Option PyVal) := do
  let respRaw ← egets obj "response"
  let resp := PyVal.pyOr respRaw (PyVal.dict [])
  let bodyRaw ← egets resp "body"
  let body := PyVal.pyOr bodyRaw (PyVal.dict [])
  let choicesRaw ← egets body "choices"
  let choices := PyVal.pyOr choicesRaw (PyVal.list [])
  let inner : Option PyVal ←
    match choices with
    | PyVal.list (first :: _) => do
      let msgRaw ← egets first "message"
      let msg := PyVal.pyOr msgRaw (PyVal.dict [])
      let content ← egets msg "content"
      if PyVal.truthy content then pure (some content)
      else do
        let txt ← egets first "text"
        if PyVal.truthy txt then pure (some txt)
        else
          match msg with
          | PyVal.str s => pure (some (PyVal.str s))
          | _ => pure Option.none
    | _ => pure Option.none
  match inner with
  | some c => pure (some c)
  | Option.none =>
    match obj with
    | PyVal.dict kvs =>
      if Dict.hasKey kvs "content" then pure (some (Dict.get kvs "content"))
      else pure (search_for_content obj)
    | _ => pure (search_for_content obj)

/-- Function `_extract_content_from_line`: the whole body runs under
`try ... except: return None`. -/
def extract_content_from_line (obj : PyVal) : Option PyVal :=
  match extractContentTry obj with
  | Except.ok v => v
  | Except.error _ => Option.none

/-- The second-chance check (src/scripts/process_batch.py lines 215-229):
`response.body.choices[0].message.content` may already be a dict; any
exception inside is caught and yields `None`. -/
def fallbackTry (obj : PyVal) : Except Unit (Option Dict) := do
  let respRaw ← egets obj "response"
  let resp := PyVal.pyOr respRaw (PyVal.dict [])
  let bodyRaw ← egets resp "body"
  let body := PyVal.pyOr bodyRaw (PyVal.dict [])
  let choicesRaw ← egets body "choices"
  let choices := PyVal.pyOr choicesRaw (PyVal.list [])
  match choices with
  | PyVal.list (first :: _) => do
    let msgRaw ← egets first "message"
    let msg := PyVal.pyOr msgRaw (PyVal.dict [])
    let cont ← egets msg "content"
    match cont with
    | PyVal.dict kvs => pure (some kvs)
    | _ => pure Option.none
  | _ => pure Option.none

def fallbackDictContent (obj : PyVal) : Option Dict :=
  match fallbackTry obj with
  | Except.ok r => r
  | Except.error _ => Option.none

/-- The correlation id of the placeholder branch
(src/scripts/process_batch.py lines 248-252):
`obj.get("custom_id") or (obj.get("response") or {}).get("request_id") or None`.
This expression is *not* guarded by a `try`, so its exceptions propagate. -/
def cidOf (obj : PyVal) : Except Unit PyVal := do
  let c1 ← egets obj "custom_id"
  if PyVal.truthy c1 then pure c1
  else do
    let respRaw ← egets obj "response"
    let resp := PyVal.pyOr respRaw (PyVal.dict [])
    let rid ← egets resp "request_id"
    if PyVal.truthy rid then pure rid else pure PyVal.none

/-! ## Row construction and the per-line CSV step
(src/scripts/process_batch.py lines 194-286) -/

/-- The row built from a parsed mapping: one entry per header column via
`_value_for_header`, lists/dicts serialized to JSON strings. -/
def rowFromParsed (header : List String) (parsed : Dict) : Dict :=
  header.foldl (fun row col =>
    let val := value_for_header parsed col
    let cell :=
      match val with
      | PyVal.list xs => PyVal.str (jsonDumps (PyVal.list xs))
      | PyVal.dict kvs => PyVal.str (jsonDumps (PyVal.dict kvs))
      | v => v
    Dict.insert row col cell) []

/-- The placeholder row: every column `None`, except `"product ID"` (when
that column exists and the correlation id is truthy). -/
def placeholderRow (header : List String) (cid : PyVal) : Dict :=
  let ph := header.foldl (fun row col => Dict.insert row col PyVal.none) []
  if header.contains "product ID" ∧ PyVal.truthy cid then
    Dict.insert ph "product ID" cid
  else ph

/-- Loop `for k in header: if k not in row: row[k] = None`. -/
def ensureCols (header : List String) (row : Dict) : Dict :=
  header.foldl (fun r k => if Dict.hasKey r k then r else Dict.insert r k PyVal.none) row

/-- The final cell conversion: lists/dicts to JSON strings, booleans to
lowercase `"true"`/`"false"`, `None` to the empty string, anything else
unchanged. -/
def toCell : PyVal → PyVal
  | PyVal.list xs => PyVal.str (jsonDumps (PyVal.list xs))
  | PyVal.dict kvs => PyVal.str (jsonDumps (PyVal.dict kvs))
  | PyVal.bool b => PyVal.str (if b then "true" else "false")
  | PyVal.none => PyVal.str ""
  | v => v

/-- Conversion `safe_row`: rebuild the row over the header with `toCell` applied. -/
def safeRow (header : List String) (row : Dict) : Dict :=
  header.foldl (fun r k => Dict.insert r k (toCell (Dict.get row k))) []

/-- Assignment `parsed = _extract_json_from_content(content_str)` guarded by
`if content_str:`.  A truthy non-string content raises (`.strip()` on it),
modelled as `Except.error`; that exception is *not* caught by the caller. -/
def parsedFromContent (obj : PyVal) : Except Unit (Option Dict) :=
  match extract_content_from_line obj with
  | some c =>
    if PyVal.truthy c then
      match c with
      | PyVal.str s => Except.ok (extract_json_from_content s)
      | _ => Except.error ()
    else Except.ok Option.none
  | Option.none => Except.ok Option.none

/-- The parsed model object for one line, after the dict-content
second chance (src/scripts/process_batch.py lines 210-229). -/
def parsedOf (obj : PyVal) : Except Unit (Option Dict) :=
  match parsedFromContent obj with
  | Except.ok (some p) => Except.ok (some p)
  | Except.ok Option.none => Except.ok (fallbackDictContent obj)
  | Except.error e => Except.error e

/-- Processing of one parsed JSONL line into the CSV row that is written
for it.  `Except.error` models an uncaught exception (which aborts the
whole run): a truthy non-string content, or a failing correlation-id
lookup in the placeholder branch. -/
def processLine (header : List String) (obj : PyVal) : Except Unit Dict :=
  match parsedOf obj with
  | Except.error e => Except.error e
  | Except.ok (some (kv :: kvs)) =>
    Except.ok (safeRow header (ensureCols header (rowFromParsed header (kv :: kvs))))
  | Except.ok _ =>
    match cidOf obj with
    | Except.error e => Except.error e
    | Except.ok cid =>
      Except.ok (safeRow header (ensureCols header (placeholderRow header cid)))

/-- The line loop of `process_batch_jsonl_to_csv`: blank lines and lines
that fail to parse as JSON are skipped (with a logged warning); every
parsed line contributes exactly one row.  The boolean records whether the
loop ran to completion (`false`: an uncaught exception aborted the run
after writing the earlier rows). -/
def processLines (header : List String) : List String → List Dict × Bool
  | [] => ([], true)
  | line :: rest =>
    let l := pyStrip line
    if l = "" then processLines header rest
    else
      match jsonLoads l with
      | Option.none => processLines header rest
      | some obj =>
        match processLine header obj with
        | Except.ok row =>
          let p := processLines header rest
          (row :: p.1, p.2)
        | Except.error _ => ([], false)

/-- The pure core of `process_batch_jsonl_to_csv`: the template CSV's
first row is `header`, the batch output file is `lines`; the result is the
list of CSV rows written after the header row, plus the completion flag. -/
def process_batch_jsonl_to_csv (header : List String) (lines : List String) :
    List Dict × Bool :=
  processLines header lines

/-! ## The Deterministic Extractor (`extract_deterministic_fields`,
src/utils/normalize.py lines 85-198) -/

/-- A regex word character (`\w`, ASCII). -/
def isWordChar (c : Char) : Bool := c.isAlpha || c.isDigit || c = '_'

def isUpperAZ (c : Char) : Bool := 'A' ≤ c && c ≤ 'Z'

/-- Leftmost match of `\b([A-Z]{3})\b` (modelled from `re.search`): scan
positions left to right; succeed on three uppercase letters enclosed by
word boundaries. -/
def isoScan : Option Char → List Char → Option (List Char)
  | prev, c₁ :: c₂ :: c₃ :: rest =>
    if isUpperAZ c₁ && isUpperAZ c₂ && isUpperAZ c₃
        && (match prev with | some p => !isWordChar p | Option.none => true)
        && (match rest with | r :: _ => !isWordChar r | [] => true) then
      some [c₁, c₂, c₃]
    else isoScan (some c₁) (c₂ :: c₃ :: rest)
  | _, _ => Option.none

def isoMatch (s : String) : Option String :=
  (isoScan Option.none s.data).map String.mk

/-- Leftmost match of `([$€£¥])`. -/
def symMatch (s : String) : Option Char :=
  s.data.find? (fun c => c = '$' || c = '€' || c = '£' || c = '¥')

/-- The `symbol_map` lookup. -/
def symbolMap (c : Char) : Option String :=
  if c = '$' then some "USD"
  else if c = '€' then some "EUR"
  else if c = '£' then some "GBP"
  else if c = '¥' then some "JPY"
  else Option.none

/-- A match of `[-+]?[0-9]{1,3}(?:[0-9,]*)(?:\.[0-9]+)?` anchored at the
current position, on an input whose commas were already removed: optional
sign, a maximal digit run, and `.` plus a maximal digit run when at least
one digit follows the dot. -/
def digitsTokenAt (cs : List Char) : Option (List Char) :=
  match cs with
  | [] => Option.none
  | c :: rest =>
    if c.isDigit then
      match rest.span Char.isDigit with
      | (ds, rest') =>
        match rest' with
        | '.' :: d :: rest'' =>
          if d.isDigit then
            match rest''.span Char.isDigit with
            | (ds₂, _) => some (c :: ds ++ '.' :: d :: ds₂)
          else some (c :: ds)
        | _ => some (c :: ds)
    else Option.none

def numTokenAt (cs : List Char) : Option (List Char) :=
  match cs with
  | [] => Option.none
  | c :: rest =>
    if c = '-' || c = '+' then
      match digitsTokenAt rest with
      | some t => some (c :: t)
      | Option.none => Option.none
    else digitsTokenAt (c :: rest)

/-- Leftmost match of the price regex (modelled from `re.search`). -/
def numSearch : List Char → Option (List Char)
  | [] => Option.none
  | c :: rest =>
    match numTokenAt (c :: rest) with
    | some t => some t
    | Option.none => numSearch rest

/-- Python `float()` of a token matched by the price regex. -/
def floatOfToken (t : List Char) : PyVal :=
  let p : Bool × List Char :=
    match t with
    | '-' :: r => (true, r)
    | '+' :: r => (false, r)
    | _ => (false, t)
  match p.2.span Char.isDigit with
  | (ds, rest) =>
    match rest with
    | '.' :: fs =>
      let m : Int := (natOfDigits ds * 10 ^ fs.length + natOfDigits fs : Nat)
      PyVal.mkFloat (if p.1 then -m else m) (-(fs.length : Int))
    | _ =>
      PyVal.mkFloat (if p.1 then -(natOfDigits ds : Int) else (natOfDigits ds : Nat)) 0

/-- Python `float(s)` on a string: optional sign, decimal digits with an
optional fraction and exponent (`inf`/`nan` spellings are not modelled);
`Option.none` models `ValueError`. -/
def pyFloatOfString (s : String) : Option PyVal :=
  let cs := pyStripChars s.data
  let p : Bool × List Char :=
    match cs with
    | '-' :: r => (true, r)
    | '+' :: r => (false, r)
    | _ => (false, cs)
  match p.2.span Char.isDigit with
  | (ds, rest₁) =>
    let fr : List Char × List Char :=
      match rest₁ with
      | '.' :: r =>
        (match r.span Char.isDigit with
         | (fs, rest₂) => (fs, rest₂))
      | _ => ([], rest₁)
    if ds.isEmpty && fr.1.isEmpty then Option.none
    else parseFloatExp p.1 ds fr.1 fr.2
where
  parseFloatExp (neg : Bool) (ds fs : List Char) (rest : List Char) : Option PyVal :=
    let m : Int := (natOfDigits ds * 10 ^ fs.length + natOfDigits fs : Nat)
    let mag := fun (ex : Int) => some (PyVal.mkFloat (if neg then -m else m) (ex - (fs.length : Int)))
    match rest with
    | [] => mag 0
    | c :: r =>
      if c = 'e' || c = 'E' then
        let q : Bool × List Char :=
          match r with
          | '-' :: r' => (true, r')
          | '+' :: r' => (false, r')
          | _ => (false, r)
        match q.2.span Char.isDigit with
        | ([], _) => Option.none
        | (es, rest') =>
          if rest'.isEmpty then
            mag (if q.1 then -(natOfDigits es : Int) else (natOfDigits es : Nat))
          else Option.none
      else Option.none

/-- Python `float(x)` on a value; `Option.none` models `TypeError` /
`ValueError`. -/
def pyFloat : PyVal → Option PyVal
  | PyVal.int n => some (PyVal.mkFloat n 0)
  | PyVal.float m e => some (PyVal.float m e)
  | PyVal.bool b => some (PyVal.mkFloat (if b then 1 else 0) 0)
  | PyVal.str s => pyFloatOfString s
  | _ => Option.none

/-- Modelled from `urllib.parse`: remove a leading `scheme:` when the part
before the first `:` is a letter followed by letters, digits, `+`, `-`, `.`. -/
def schemeSplit (cs : List Char) : List Char :=
  match findCharIdx cs ':' with
  | some i =>
    (match cs.take i with
     | c :: rest =>
       if c.isAlpha && rest.all (fun d => d.isAlphanum || d = '+' || d = '-' || d = '.') then
         cs.drop (i + 1)
       else cs
     | [] => cs)
  | Option.none => cs

/-- Modelled from `urllib.parse.urlparse(s).netloc`: the authority after
`//`, up to the next `/`, `?` or `#`; `Option.none` models the
`ValueError` raised on an unbalanced `[`/`]` in the authority. -/
def urlparseNetloc (s : String) : Option String :=
  match schemeSplit s.data with
  | '/' :: '/' :: r =>
    let netloc := r.takeWhile (fun c => !(c = '/' || c = '?' || c = '#'))
    if (netloc.contains '[' && !netloc.contains ']') ||
        (netloc.contains ']' && !netloc.contains '[') then Option.none
    else some (String.mk netloc)
  | _ => some ""

/-- Python `str(x)` (containers approximated by their JSON rendering; the
pipeline only ever applies this to URL values, which are strings). -/
def pyStr : PyVal → String
  | PyVal.str s => s
  | PyVal.int n => toString n
  | PyVal.bool b => if b then "True" else "False"
  | PyVal.none => "None"
  | PyVal.float m e => floatRepr m e
  | v => jsonDumps v

/-- The currency resolved from the combined price-with-currency string:
a 3-letter ISO token first, then the symbol map. -/
def currencyFromString (s : String) : PyVal :=
  match isoMatch s with
  | some c3 => PyVal.str c3
  | Option.none =>
    match symMatch s with
    | some sym =>
      (match symbolMap sym with
       | some code => PyVal.str code
       | Option.none => PyVal.none)
    | Option.none => PyVal.none

/-- The price section of the extractor (src/utils/normalize.py lines
115-153): the `"price"` dict entries it assigns (possibly none) and the
currency value. -/
def priceAndCurrency (record : Dict) : Dict × PyVal :=
  let price := record.get "price"
  if price = PyVal.none then
    let pwc := PyVal.pyOr (record.get "priceWithCurrency")
        (PyVal.pyOr (record.get "price_with_currency") (PyVal.str ""))
    match pwc with
    | PyVal.str s =>
      if pyStrip s ≠ "" then
        let commaFree := s.data.filter (fun c => !(c = ','))
        let pEntry : Dict :=
          match numSearch commaFree with
          | some t => [("price", floatOfToken t)]
          | Option.none => []
        (pEntry, currencyFromString s)
      else ([], PyVal.none)
    | _ => ([], PyVal.none)
  else
    let pv := match pyFloat price with
      | some f => f
      | Option.none => PyVal.none
    ([("price", pv)],
      PyVal.pyOr (record.get "currency") (record.get "priceCurrency"))

/-- Function `extract_deterministic_fields`: the Deterministic Extractor.  The
result dict is assembled in the source's insertion order; note that the
`"price"` key is only inserted in the branches that assign it. -/
def extract_deterministic_fields (record : Dict) : Dict :=
  let url := PyVal.pyOr (record.get "url") (PyVal.pyOr (record.get "link")
      (PyVal.pyOr (record.get "product_url") (record.get "itemUrl")))
  let source :=
    if PyVal.truthy url then
      match urlparseNetloc (pyStr url) with
      | some n => PyVal.str n
      | Option.none => PyVal.none
    else PyVal.pyOr (record.get "source") (PyVal.pyOr (record.get "site") PyVal.none)
  let title := PyVal.pyOr (record.get "title") (PyVal.pyOr (record.get "name") PyVal.none)
  let priceCur : Dict × PyVal := priceAndCurrency record
  let imgs := PyVal.pyOr (record.get "images") (PyVal.pyOr (record.get "image")
      (PyVal.pyOr (record.get "image_urls") (record.get "photos")))
  let images :=
    match imgs with
    | PyVal.list xs => PyVal.list xs
    | PyVal.str s => PyVal.list [PyVal.str s]
    | _ => PyVal.list []
  let upc := PyVal.pyOr (record.get "upc") (PyVal.pyOr (record.get "ean") PyVal.none)
  let mpn := PyVal.pyOr (record.get "mpn") PyVal.none
  let seller := PyVal.pyOr (record.get "seller") (PyVal.pyOr (record.get "sellerName") PyVal.none)
  let itemLoc := PyVal.pyOr (record.get "itemLocation") (PyVal.pyOr (record.get "location") PyVal.none)
  let cats := PyVal.pyOr (record.get "categories") (PyVal.pyOr (record.get "category") PyVal.none)
  let category :=
    match cats with
    | PyVal.list (x :: _) => x
    | PyVal.list [] => PyVal.none
    | v => v
  let rating := PyVal.pyOr (record.get "rating") (PyVal.pyOr (record.get "averageRating") PyVal.none)
  let reviewCount := PyVal.pyOr (record.get "review_count") (PyVal.pyOr (record.get "reviews") PyVal.none)
  let description := PyVal.pyOr (record.get "description")
      (PyVal.pyOr (record.get "subTitle") (PyVal.pyOr (record.get "details") PyVal.none))
  [("url", url), ("source", source), ("title", title)]
    ++ priceCur.1
    ++ [("currency", PyVal.pyOr priceCur.2 PyVal.none),
        ("image_urls", images), ("upc", upc), ("mpn", mpn),
        ("seller_name", seller), ("itemLocation", itemLoc),
        ("category", category), ("rating", rating),
        ("review_count", reviewCount), ("description", description)]

/-! ## Prompt building and the Batch Request Emitter
(src/utils/normalize.py lines 201-209 and 280-306).
`PROMPT_INSTRUCTION` (src/utils/prompt.py) is a versioned template asset;
it is a parameter here, as every theorem holds for any template text. -/

/-- Function `build_prompt`: substitute the serialized `{deterministic, raw}`
context for the `<<<INPUT_PRODUCT_JSON>>>` marker in the instruction. -/
def build_prompt (instruction : String) (record_det raw_record : Dict) : String :=
  pyReplace instruction "<<<INPUT_PRODUCT_JSON>>>"
    (jsonDumps (PyVal.dict [("deterministic", PyVal.dict record_det),
                            ("raw", PyVal.dict raw_record)]))

/-- One line object of `write_batch_jsonl`. -/
def batchLine (instruction : String) (idx : Nat) (det raw : Dict) : PyVal :=
  PyVal.dict [
    ("custom_id", PyVal.str ("task-" ++ toString idx)),
    ("method", PyVal.str "POST"),
    ("url", PyVal.str "/chat/completions"),
    ("body", PyVal.dict [
      ("model", PyVal.str "o4-mini"),
      ("messages", PyVal.list [
        PyVal.dict [("role", PyVal.str "system"),
                    ("content", PyVal.str "You are a helpful, precise data formatter.")],
        PyVal.dict [("role", PyVal.str "user"),
                    ("content", PyVal.str (build_prompt instruction det raw))]])])]

/-- Function `write_batch_jsonl`: one newline-terminated JSON line per record, in
order, with `custom_id` `task-{i}` at ordinal position `i`. -/
def write_batch_jsonl (instruction : String) (records : List (Dict × Dict)) :
    List String :=
  records.enum.map (fun p => jsonDumps (batchLine instruction p.1 p.2.1 p.2.2) ++ "\n")

/-- The §4.3/§6 batch-request line as the claim words it, built
independently of `batchLine` from the spec's line template. -/
def claimBatchLine (instruction : String) (idx : Nat) (pair : Dict × Dict) : String :=
  jsonDumps (PyVal.dict [
    ("custom_id", PyVal.str ("task-" ++ toString idx)),
    ("method", PyVal.str "POST"),
    ("url", PyVal.str "/chat/completions"),
    ("body", PyVal.dict [
      ("model", PyVal.str "o4-mini"),
      ("messages", PyVal.list [
        PyVal.dict [("role", PyVal.str "system"),
                    ("content", PyVal.str "You are a helpful, precise data formatter.")],
        PyVal.dict [("role", PyVal.str "user"),
                    ("content", PyVal.str (build_prompt instruction pair.1 pair.2))]])])]) ++ "\n"

/-! ## The Loader and the orchestrator entry
(src/utils/normalize.py lines 57-82 and 313-379) -/

/-- Function `safe_load_json_file` on a file's text: a JSON array yields its
elements, a JSON object yields a one-element list, any other JSON value
yields `[]`; on a parse failure, fall back to JSON-lines (blank lines
skipped, invalid lines skipped with a logged warning). -/
def safe_load_json_file (text : String) : List PyVal :=
  match jsonLoads text with
  | some (PyVal.list xs) => xs
  | some (PyVal.dict kvs) => [PyVal.dict kvs]
  | some _ => []
  | Option.none =>
    (pySplitlines text).foldr (fun ln acc =>
      let l := pyStrip ln
      if l = "" then acc
      else
        match jsonLoads l with
        | some v => v :: acc
        | Option.none => acc) []

/-- Statement `if "reviews" in it: del it["reviews"]` (src/utils/normalize.py lines
365-367): the one mutation applied to a loaded record. -/
def prepRecord (kvs : Dict) : Dict :=
  if Dict.hasKey kvs "reviews" then Dict.erase kvs "reviews" else kvs

/-- The per-file record loop of `normalize_records` (lines 361-371):
delete the `"reviews"` key when present, pair each record with its
deterministic extraction.  A non-dict item raises inside the per-file
`try`, which abandons the rest of that file (keeping earlier records). -/
def prepFile : List PyVal → List (Dict × Dict)
  | [] => []
  | PyVal.dict kvs :: rest =>
    let it := prepRecord kvs
    (extract_deterministic_fields it, it) :: prepFile rest
  | _ :: _ => []

/-- All `(deterministic, raw)` pairs collected from the input files. -/
def collectRecords (files : List String) : List (Dict × Dict) :=
  (files.map (fun t => prepFile (safe_load_json_file t))).flatten

/-- The observable outcome of a `normalize_records` run: the JSONL lines
written, the CSV rows appended, and the process exit code. -/
structure RunOutcome where
  jsonlLines : List String
  csvRows : List Dict
  exitCode : Option Nat

set_option linter.unusedVariables false in
/-- Function `normalize_records` (src/utils/normalize.py lines 313-379 of the
executed path): collect records from the input files, write the batch
JSONL, then `sys.exit(0)` (line 379) — the synchronous model-call, parse,
retry/backoff and CSV-writing code below that line never runs, so the
outcome cannot depend on the model oracle and contains no CSV rows. -/
def normalize_records (instruction : String) (header : List String)
    (files : List String) (oracle : Nat → Except Unit String) : RunOutcome :=
  let all_records := collectRecords files
  let jsonl := write_batch_jsonl instruction all_records
  { jsonlLines := jsonl, csvRows := [], exitCode := some 0 }

/-! ## Row-shape lemmas -/

theorem mem_keys_foldl_insert (g : String → PyVal) (h : List String) (init : Dict)
    (k : String) :
    k ∈ Dict.keys (h.foldl (fun r c => Dict.insert r c (g c)) init) ↔
      (k ∈ Dict.keys init ∨ k ∈ h) := by
  induction h generalizing init with
  | nil => simp
  | cons c rest ih =>
    simp only [List.foldl_cons, List.mem_cons]
    rw [ih, Dict.mem_keys_insert]
    tauto

theorem get_foldl_insert (g : String → PyVal) (h : List String) (init : Dict)
    (k : String) :
    Dict.get (h.foldl (fun r c => Dict.insert r c (g c)) init) k =
      if k ∈ h then g k else Dict.get init k := by
  induction h generalizing init with
  | nil => simp
  | cons c rest ih =>
    simp only [List.foldl_cons]
    rw [ih, Dict.get_insert]
    by_cases h1 : k ∈ rest
    · rw [if_pos h1, if_pos (List.mem_cons.mpr (Or.inr h1))]
    · rw [if_neg h1]
      by_cases h2 : k = c
      · subst h2
        rw [if_pos rfl, if_pos (List.mem_cons.mpr (Or.inl rfl))]
      · rw [if_neg h2, if_neg (by simp [h1, h2])]

/-- The keys of a `safe_row` are exactly the header columns. -/
theorem mem_keys_safeRow (header : List String) (row : Dict) (k : String) :
    k ∈ Dict.keys (safeRow header row) ↔ k ∈ header := by
  unfold safeRow
  exact (mem_keys_foldl_insert (fun c => toCell (Dict.get row c)) header [] k).trans
    (by simp [Dict.keys])

theorem get_safeRow (header : List String) (row : Dict) (k : String) (hk : k ∈ header) :
    Dict.get (safeRow header row) k = toCell (Dict.get row k) := by
  unfold safeRow
  exact (get_foldl_insert (fun c => toCell (Dict.get row c)) header [] k).trans (if_pos hk)

/-- Lemma: `ensureCols` is the identity on a row that already has every header
column. -/
theorem ensureCols_of_hasKeys (header : List String) (row : Dict)
    (h : ∀ k ∈ header, Dict.hasKey row k = true) : ensureCols header row = row := by
  unfold ensureCols
  induction header with
  | nil => rfl
  | cons c rest ih =>
    simp only [List.foldl_cons]
    rw [if_pos (h c (by simp))]
    exact ih (fun k hk => h k (List.mem_cons.mpr (Or.inr hk)))

theorem hasKey_placeholderRow (header : List String) (cid : PyVal) (k : String)
    (hk : k ∈ header) : Dict.hasKey (placeholderRow header cid) k = true := by
  unfold placeholderRow
  rw [Dict.hasKey_iff_mem_keys]
  have hbase : k ∈ Dict.keys (header.foldl (fun row col => Dict.insert row col PyVal.none) []) := by
    rw [mem_keys_foldl_insert (fun _ => PyVal.none) header []]
    exact Or.inr hk
  split_ifs with hc
  · rw [Dict.mem_keys_insert]
    exact Or.inl hbase
  · exact hbase

theorem get_placeholderRow_ne (header : List String) (cid : PyVal) (k : String)
    (hk : k ∈ header) (hne : k ≠ "product ID") :
    Dict.get (placeholderRow header cid) k = PyVal.none := by
  unfold placeholderRow
  have hbase : Dict.get (header.foldl (fun row col => Dict.insert row col PyVal.none) []) k
      = PyVal.none := by
    rw [get_foldl_insert (fun _ => PyVal.none) header [], if_pos hk]
  split_ifs with hc
  · rw [Dict.get_insert, if_neg hne]
    exact hbase
  · exact hbase

theorem get_placeholderRow_pid (header : List String) (cid : PyVal)
    (hid : "product ID" ∈ header) (ht : PyVal.truthy cid = true) :
    Dict.get (placeholderRow header cid) "product ID" = cid := by
  unfold placeholderRow
  have h1 : header.contains "product ID" = true := by simpa using hid
  rw [if_pos ⟨h1, ht⟩, Dict.get_insert, if_pos rfl]

/-- A successfully processed line always produces a `safe_row` over the
header. -/
theorem processLine_ok_shape (header : List String) (obj : PyVal) (row : Dict)
    (h : processLine header obj = Except.ok row) :
    ∃ r₀, row = safeRow header r₀ := by
  unfold processLine at h
  rcases hp : parsedOf obj with e | p
  · rw [hp] at h; simp at h
  · rw [hp] at h
    rcases p with _ | pd
    · dsimp only at h
      rcases hq : cidOf obj with e | cid <;> rw [hq] at h
      · simp at h
      · simp only [Except.ok.injEq] at h
        exact ⟨_, h.symm⟩
    · rcases pd with _ | ⟨kv, kvs⟩
      · dsimp only at h
        rcases hq : cidOf obj with e | cid <;> rw [hq] at h
        · simp at h
        · simp only [Except.ok.injEq] at h
          exact ⟨_, h.symm⟩
      · simp only [Except.ok.injEq] at h
        exact ⟨_, h.symm⟩

/-- Every row produced by the line loop is a `safe_row` over the header
(this holds for completed and aborted runs alike). -/
theorem get_cons_ne (k₀ : String) (v : PyVal) (d : Dict) (k : String) (h : ¬k₀ = k) :
    Dict.get ((k₀, v) :: d) k = Dict.get d k := by
  simp [Dict.get, h]

theorem get_cons_eq (k₀ : String) (v : PyVal) (d : Dict) :
    Dict.get ((k₀, v) :: d) k₀ = v := by
  simp [Dict.get]

theorem get_append (d₁ d₂ : Dict) (k : String) :
    Dict.get (d₁ ++ d₂) k =
      if Dict.hasKey d₁ k then Dict.get d₁ k else Dict.get d₂ k := by
  induction d₁ with
  | nil => simp [Dict.hasKey, Dict.get]
  | cons kv rest ih =>
    obtain ⟨k₀, v₀⟩ := kv
    by_cases h : k₀ = k
    · subst h
      simp [Dict.hasKey, Dict.get]
    · rw [List.cons_append, get_cons_ne _ _ _ _ h, ih,
        show Dict.hasKey ((k₀, v₀) :: rest) k = Dict.hasKey rest k from by
          simp [Dict.hasKey, h]]
      by_cases hk : Dict.hasKey rest k = true
      · rw [if_pos hk, if_pos hk, get_cons_ne _ _ _ _ h]
      · rw [if_neg hk, if_neg hk]

theorem keys_append (d₁ d₂ : Dict) :
    Dict.keys (d₁ ++ d₂) = Dict.keys d₁ ++ Dict.keys d₂ := by
  simp [Dict.keys]

/-- The price section assigns either no `"price"` entry or exactly one. -/
theorem priceAndCurrency_fst_shape (record : Dict) :
    (priceAndCurrency record).1 = [] ∨
      ∃ v, (priceAndCurrency record).1 = [("price", v)] := by
  unfold priceAndCurrency
  dsimp only
  split
  · split
    · split
      · dsimp only
        split
        · exact Or.inr ⟨_, rfl⟩
        · exact Or.inl rfl
      · exact Or.inl rfl
    · exact Or.inl rfl
  · exact Or.inr ⟨_, rfl⟩

/-- Reading `"price"` from the extractor's result reads the price section's
entry (or `None` when that section assigned nothing). -/
theorem extract_get_price (record : Dict) :
    Dict.get (extract_deterministic_fields record) "price" =
      Dict.get (priceAndCurrency record).1 "price" := by
  unfold extract_deterministic_fields
  dsimp only
  simp only [List.cons_append, List.nil_append]
  rw [get_cons_ne _ _ _ _ (by decide), get_cons_ne _ _ _ _ (by decide),
    get_cons_ne _ _ _ _ (by decide), get_append]
  rcases priceAndCurrency_fst_shape record with hp | ⟨v, hp⟩ <;> rw [hp]
  · rw [show Dict.hasKey [] "price" = false from rfl]
    simp only [Bool.false_eq_true, if_false]
    rw [get_cons_ne _ _ _ _ (by decide), get_cons_ne _ _ _ _ (by decide),
      get_cons_ne _ _ _ _ (by decide), get_cons_ne _ _ _ _ (by decide),
      get_cons_ne _ _ _ _ (by decide), get_cons_ne _ _ _ _ (by decide),
      get_cons_ne _ _ _ _ (by decide), get_cons_ne _ _ _ _ (by decide),
      get_cons_ne _ _ _ _ (by decide), get_cons_ne _ _ _ _ (by decide)]
  · rw [show Dict.hasKey [("price", v)] "price" = true from by simp [Dict.hasKey],
      if_pos rfl]

/-- Reading `"currency"` from the extractor's result reads the price
section's currency value (truthy-coalesced with `None`). -/
theorem extract_get_currency (record : Dict) :
    Dict.get (extract_deterministic_fields record) "currency" =
      PyVal.pyOr (priceAndCurrency record).2 PyVal.none := by
  unfold extract_deterministic_fields
  dsimp only
  simp only [List.cons_append, List.nil_append]
  rw [get_cons_ne _ _ _ _ (by decide), get_cons_ne _ _ _ _ (by decide),
    get_cons_ne _ _ _ _ (by decide), get_append]
  rcases priceAndCurrency_fst_shape record with hp | ⟨v, hp⟩ <;> rw [hp]
  · rw [show Dict.hasKey [] "currency" = false from rfl]
    simp only [Bool.false_eq_true, if_false]
    rw [get_cons_eq]
  · rw [show Dict.hasKey [("price", v)] "currency" = false from by simp [Dict.hasKey]]
    simp only [Bool.false_eq_true, if_false]
    rw [get_cons_eq]

/-- The price section when a non-`None` price field exists. -/
theorem priceAndCurrency_of_price (record : Dict) (v : PyVal)
    (h : Dict.get record "price" = v) (hv : ¬v = PyVal.none) :
    priceAndCurrency record =
      ([("price", match pyFloat v with | some f => f | Option.none => PyVal.none)],
        PyVal.pyOr (Dict.get record "currency") (Dict.get record "priceCurrency")) := by
  unfold priceAndCurrency
  rw [h, if_neg hv]

/-- The price section when the price field is `None` and the combined
string is a non-blank string. -/
theorem priceAndCurrency_of_pwc (record : Dict) (s : String)
    (h1 : Dict.get record "price" = PyVal.none)
    (h2 : PyVal.pyOr (Dict.get record "priceWithCurrency")
        (PyVal.pyOr (Dict.get record "price_with_currency") (PyVal.str "")) = PyVal.str s)
    (h3 : pyStrip s ≠ "") :
    priceAndCurrency record =
      ((match numSearch (s.data.filter fun c => !(c = ',')) with
        | some t => [("price", floatOfToken t)]
        | Option.none => []), currencyFromString s) := by
  unfold priceAndCurrency
  rw [h1, if_pos rfl, h2]
  dsimp only
  rw [if_pos h3]

/-- The key-resolution precedence as the *amended* claim words it: exact
key; the lowercased column as a literal key; the column with spaces
replaced by underscores, in that spelling and lowercased; the column with
spaces removed, in that spelling and lowercased; finally a linear scan
comparing keys case-insensitively after stripping.  There is no
underscore-to-space strategy. -/
def resolve_amended (parsed : Dict) (col : String) : PyVal :=
  if parsed.hasKey col then parsed.get col
  else if parsed.hasKey (pyLower col) then parsed.get (pyLower col)
  else if parsed.hasKey (pyReplace col " " "_") then parsed.get (pyReplace col " " "_")
  else if parsed.hasKey (pyLower (pyReplace col " " "_")) then
    parsed.get (pyLower (pyReplace col " " "_"))
  else if parsed.hasKey (pyReplace col " " "") then parsed.get (pyReplace col " " "")
  else if parsed.hasKey (pyLower (pyReplace col " " "")) then
    parsed.get (pyLower (pyReplace col " " ""))
  else
    match parsed.find? (fun kv => pyLower (pyStrip kv.1) == pyLower col) with
    | some kv => kv.2
    | Option.none => PyVal.none

/-- When the run completes, the number of rows written equals the number
of input lines that are non-blank and parse as JSON. -/
theorem processLines_length (header : List String) (lines : List String)
    (h : (processLines header lines).2 = true) :
    (processLines header lines).1.length =
      lines.countP (fun l => !(pyStrip l == "") && (jsonLoads (pyStrip l)).isSome) := by
  induction lines with
  | nil => simp [processLines]
  | cons line rest ih =>
    rw [List.countP_cons]
    unfold processLines at h ⊢
    by_cases hb : pyStrip line = ""
    · rw [if_pos hb] at h ⊢
      rw [ih h]
      simp [hb]
    · rw [if_neg hb] at h ⊢
      split at h
      next hj =>
        rw [hj, ih h]
        simp [hb, hj]
      next obj hj =>
        rw [hj]
        dsimp only
        split at h
        next r hpl =>
          dsimp only at h ⊢
          rw [List.length_cons, ih h]
          simp [hb]
        next e hpl =>
          simp at h

theorem processLines_rows_shape (header : List String) (lines : List String) :
    ∀ row ∈ (processLines header lines).1, ∃ r₀, row = safeRow header r₀ := by
  induction lines with
  | nil => intro row hrow; simp [processLines] at hrow
  | cons line rest ih =>
    intro row hrow
    unfold processLines at hrow
    by_cases hb : pyStrip line = ""
    · rw [if_pos hb] at hrow
      exact ih row hrow
    · rw [if_neg hb] at hrow
      rcases hj : jsonLoads (pyStrip line) with _ | obj
      · rw [hj] at hrow
        exact ih row hrow
      · rw [hj] at hrow
        dsimp only at hrow
        rcases hpl : processLine header obj with e | r
        · rw [hpl] at hrow
          simp at hrow
        · rw [hpl] at hrow
          simp only [List.mem_cons] at hrow
          rcases hrow with rfl | hrow
          · exact processLine_ok_shape header obj row hpl
          · exact ih row hrow

/-! ## The claims -/

/-- C1 (counterexample): the claim says a batch-output JSONL line that
fails to parse as JSON still yields exactly one output row, so rows
written always equal input records.  On the one-line input `"not json"`
the run completes normally with zero rows: the unparsable line is skipped,
not given a placeholder row. -/
theorem C1_rows_counterexample :
    (process_batch_jsonl_to_csv ["a"] ["not json"]).2 = true ∧
    (process_batch_jsonl_to_csv ["a"] ["not json"]).1.length = 0 ∧
    ¬(process_batch_jsonl_to_csv ["a"] ["not json"]).1.length
        = (["not json"] : List String).length := by
  decide

/-- C1 (amended): in a run that completes, the number of rows written
equals the number of input lines that are non-blank and parse as JSON —
each such line yields exactly one row (placeholder rows included); blank
lines and lines that fail to parse as JSON are skipped with a logged
warning and yield no row. -/
theorem C1_rows_amended (header : List String) (lines : List String)
    (h : (process_batch_jsonl_to_csv header lines).2 = true) :
    (process_batch_jsonl_to_csv header lines).1.length =
      lines.countP (fun l => !(pyStrip l == "") && (jsonLoads (pyStrip l)).isSome) :=
  processLines_length header lines h

theorem C1_rows_amended_witness :
    (process_batch_jsonl_to_csv ["a"] ["\x7b\"x\": 1\x7d", "", "not json"]).1.length =
      (["\x7b\"x\": 1\x7d", "", "not json"] : List String).countP
        (fun l => !(pyStrip l == "") && (jsonLoads (pyStrip l)).isSome) :=
  C1_rows_amended ["a"] ["\x7b\"x\": 1\x7d", "", "not json"] (by decide)

/-- C2: every row written by the batch processor has exactly the Schema
(header) columns as its key set — no extra keys and no missing keys —
whether the row is a normal row or a placeholder row, and regardless of
the keys of the parsed object. -/
theorem C2_row_keys (header : List String) (lines : List String) :
    ∀ row ∈ (process_batch_jsonl_to_csv header lines).1,
      ∀ k, k ∈ Dict.keys row ↔ k ∈ header := by
  intro row hrow k
  obtain ⟨r₀, rfl⟩ := processLines_rows_shape header lines row hrow
  exact mem_keys_safeRow header r₀ k

theorem C2_row_keys_witness :
    "a" ∈ Dict.keys [("a", PyVal.str "")] ↔ "a" ∈ (["a"] : List String) :=
  C2_row_keys ["a"] ["\x7b\"x\": 1\x7d"] [("a", PyVal.str "")] (by decide) "a"

/-- C3: the Output Parser/Repairer implements the §4.4 procedure — the
code's dispatch (repairing only on a parse exception) is extensionally
equal to the spec's wording (repairing on any non-mapping shape), empty
input returns none, and the three §8 test vectors hold. -/
theorem C3_parser_recovery :
    (∀ content, extract_json_spec content = extract_json_from_content content) ∧
    extract_json_from_content "" = Option.none ∧
    extract_json_from_content "```\n\x7b\"a\":1\x7d\n```" = some [("a", PyVal.int 1)] ∧
    extract_json_from_content "prefix text \x7b\"a\":1,\"b\":[1,2]\x7d trailing" =
      some [("a", PyVal.int 1), ("b", PyVal.list [PyVal.int 1, PyVal.int 2])] ∧
    extract_json_from_content "pure garble with no json at all" = Option.none :=
  ⟨extract_json_eq_spec, by decide, by decide, by decide, by decide⟩

/-- C4: deterministic price/currency extraction.  A non-`None` price field
is converted with `float()` and the currency comes from the separate
`currency`/`priceCurrency` fields; otherwise the combined string's first
numeric substring (after comma removal) gives the price and the currency
is a 3-letter ISO token or the `$`/`€`/`£`/`¥` symbol map; when nothing
matches both read as null; the two §8 vectors hold. -/
theorem C4_price_currency :
    (∀ (record : Dict) (v : PyVal), Dict.get record "price" = v → ¬v = PyVal.none →
      Dict.get (extract_deterministic_fields record) "price" =
        (match pyFloat v with | some f => f | Option.none => PyVal.none) ∧
      Dict.get (extract_deterministic_fields record) "currency" =
        PyVal.pyOr (PyVal.pyOr (Dict.get record "currency")
          (Dict.get record "priceCurrency")) PyVal.none) ∧
    (∀ (record : Dict) (s : String), Dict.get record "price" = PyVal.none →
      PyVal.pyOr (Dict.get record "priceWithCurrency")
        (PyVal.pyOr (Dict.get record "price_with_currency") (PyVal.str "")) = PyVal.str s →
      pyStrip s ≠ "" →
      Dict.get (extract_deterministic_fields record) "price" =
        (match numSearch (s.data.filter fun c => !(c = ',')) with
         | some t => floatOfToken t
         | Option.none => PyVal.none) ∧
      Dict.get (extract_deterministic_fields record) "currency" =
        PyVal.pyOr (currencyFromString s) PyVal.none) ∧
    (∀ (record : Dict) (s : String), Dict.get record "price" = PyVal.none →
      PyVal.pyOr (Dict.get record "priceWithCurrency")
        (PyVal.pyOr (Dict.get record "price_with_currency") (PyVal.str "")) = PyVal.str s →
      pyStrip s ≠ "" →
      numSearch (s.data.filter fun c => !(c = ',')) = Option.none →
      currencyFromString s = PyVal.none →
      Dict.get (extract_deterministic_fields record) "price" = PyVal.none ∧
      Dict.get (extract_deterministic_fields record) "currency" = PyVal.none) ∧
    Dict.get (extract_deterministic_fields
      [("priceWithCurrency", PyVal.str "US $24.95/ea")]) "price" = PyVal.float 2495 (-2) ∧
    Dict.get (extract_deterministic_fields
      [("priceWithCurrency", PyVal.str "US $24.95/ea")]) "currency" = PyVal.str "USD" ∧
    Dict.get (extract_deterministic_fields
      [("priceWithCurrency", PyVal.str "€12.00")]) "price" = PyVal.float 12 0 ∧
    Dict.get (extract_deterministic_fields
      [("priceWithCurrency", PyVal.str "€12.00")]) "currency" = PyVal.str "EUR" := by
  refine ⟨?_, ?_, ?_, by decide, by decide, by decide, by decide⟩
  · intro record v h hv
    have hp := priceAndCurrency_of_price record v h hv
    constructor
    · rw [extract_get_price, hp]
      rfl
    · rw [extract_get_currency, hp]
  · intro record s h1 h2 h3
    have hp := priceAndCurrency_of_pwc record s h1 h2 h3
    constructor
    · rw [extract_get_price, hp]
      rcases hn : numSearch (s.data.filter fun c => !(c = ',')) with _ | t <;> rfl
    · rw [extract_get_currency, hp]
  · intro record s h1 h2 h3 hn hc
    have hp := priceAndCurrency_of_pwc record s h1 h2 h3
    constructor
    · rw [extract_get_price, hp, hn]
      rfl
    · rw [extract_get_currency, hp, hc]
      rfl

theorem C4_price_currency_witness :
    Dict.get (extract_deterministic_fields
      [("price", PyVal.int 7), ("currency", PyVal.str "GBP")]) "price" = PyVal.float 7 0 ∧
    Dict.get (extract_deterministic_fields
      [("price", PyVal.int 7), ("currency", PyVal.str "GBP")]) "currency" = PyVal.str "GBP" := by
  have h := C4_price_currency.1 [("price", PyVal.int 7), ("currency", PyVal.str "GBP")]
    (PyVal.int 7) (by decide) (by decide)
  exact ⟨h.1.trans (by decide), h.2.trans (by decide)⟩

/-- C5 (counterexample): the claim's procedure includes an
underscore-to-space variant ("both directions"), under which parsed key
`"product id"` would resolve for schema column `"product_id"`; the code
has no such strategy and yields null there. -/
theorem C5_resolution_counterexample :
    value_for_header [("product id", PyVal.int 7)] "product_id" = PyVal.none ∧
    resolve_spec [("product id", PyVal.int 7)] "product_id" = PyVal.int 7 := by
  decide

/-- C5 (amended): the resolution precedence is exact match; the lowercased
column as a literal key; the space-to-underscore variant (one direction
only) and its lowercase; the space-removed variant and its lowercase;
finally a case-insensitive stripped scan — and in particular no
underscore-to-space strategy exists, while the two §8 vectors still hold. -/
theorem C5_resolution_amended :
    (∀ parsed col, value_for_header parsed col = resolve_amended parsed col) ∧
    (∀ v : PyVal, value_for_header [("product id", v)] "product_id" = PyVal.none) ∧
    value_for_header [("Product ID", PyVal.int 7)] "product ID" = PyVal.int 7 ∧
    value_for_header [("product_id", PyVal.int 7)] "product ID" = PyVal.int 7 :=
  ⟨fun _ _ => rfl, fun _ => rfl, by decide, by decide⟩

/-- C6 (counterexample): the claim says a parse-failed record still
yields exactly one placeholder row.  On the record
`\x7b"custom_id": "", "response": "x"\x7d` the parsed model object is none,
but the unguarded correlation-id expression
(process_batch.py lines 248-252) calls `.get` on the non-dict string
`"x"`, raises `AttributeError`, and the run aborts with no row for this
record. -/
theorem C6_placeholder_counterexample :
    parsedOf (PyVal.dict [("custom_id", PyVal.str ""), ("response", PyVal.str "x")])
      = Except.ok Option.none ∧
    processLine ["product ID"]
      (PyVal.dict [("custom_id", PyVal.str ""), ("response", PyVal.str "x")])
      = Except.error () := by
  decide

/-- C6 (amended): when the parsed model object is none, then *provided the
correlation-id expression does not raise* — i.e. `cidOf` returns a value,
which holds when `custom_id` is truthy or the `response` field is not a
truthy non-mapping — exactly one placeholder row is emitted: every Schema
column is empty except `"product ID"` (when that column is in the Schema),
which is filled from the correlation id (`custom_id`, falling back to
`response.request_id`).  When the correlation-id expression raises, the
exception propagates and the run aborts with no row for that record. -/
theorem C6_placeholder_row :
    (∀ (header : List String) (obj : PyVal) (cid : PyVal),
      parsedOf obj = Except.ok Option.none → cidOf obj = Except.ok cid →
      processLine header obj = Except.ok
        (safeRow header (ensureCols header (placeholderRow header cid))) ∧
      (∀ col ∈ header, col ≠ "product ID" →
        Dict.get (safeRow header (ensureCols header (placeholderRow header cid))) col
          = PyVal.str "") ∧
      ("product ID" ∈ header → PyVal.truthy cid = true →
        Dict.get (safeRow header (ensureCols header (placeholderRow header cid)))
          "product ID" = toCell cid)) ∧
    (∀ (header : List String) (obj : PyVal) (e : Unit),
      parsedOf obj = Except.ok Option.none → cidOf obj = Except.error e →
      processLine header obj = Except.error e) := by
  constructor
  · intro header obj cid hparsed hcid
    have hens : ensureCols header (placeholderRow header cid) = placeholderRow header cid :=
      ensureCols_of_hasKeys header _ (fun k hk => hasKey_placeholderRow header cid k hk)
    refine ⟨?_, ?_, ?_⟩
    · unfold processLine
      rw [hparsed]
      dsimp only
      rw [hcid]
    · intro col hcol hne
      rw [hens, get_safeRow header _ col hcol,
        get_placeholderRow_ne header cid col hcol hne]
      rfl
    · intro hid ht
      rw [hens, get_safeRow header _ "product ID" hid,
        get_placeholderRow_pid header cid hid ht]
  · intro header obj e hparsed hcid
    unfold processLine
    rw [hparsed]
    dsimp only
    rw [hcid]

theorem C6_placeholder_row_witness :
    Dict.get (safeRow ["product ID", "name"] (ensureCols ["product ID", "name"]
      (placeholderRow ["product ID", "name"] (PyVal.str "task-3")))) "product ID"
      = toCell (PyVal.str "task-3") :=
  (C6_placeholder_row.1 ["product ID", "name"]
    (PyVal.dict [("custom_id", PyVal.str "task-3")]) (PyVal.str "task-3")
    (by decide) (by decide)).2.2 (by decide) (by decide)

/-- C7: the Batch Request Emitter writes, for the record at ordinal
position `i`, exactly one newline-terminated JSON line of the §4.3 shape
with `custom_id` `task-{i}`, and — being a pure function of the record
sequence — re-running it on the same sequence produces byte-identical
lines with the same `custom_id` per position. -/
theorem C7_batch_lines (instruction : String) (records : List (Dict × Dict)) :
    write_batch_jsonl instruction records =
      records.enum.map (fun p => claimBatchLine instruction p.1 p.2) ∧
    (write_batch_jsonl instruction records).length = records.length ∧
    write_batch_jsonl instruction records = write_batch_jsonl instruction records := by
  refine ⟨rfl, ?_, rfl⟩
  simp [write_batch_jsonl]

/-- C8 (counterexample): the claim says the result always contains all
fourteen keys with unresolved fields present and null; on the empty record
the `"price"` key is absent entirely (only thirteen keys). -/
theorem C8_keys_counterexample :
    ¬("price" ∈ Dict.keys (extract_deterministic_fields [])) ∧
    Dict.keys (extract_deterministic_fields []) =
      ["url", "source", "title", "currency", "image_urls", "upc", "mpn",
       "seller_name", "itemLocation", "category", "rating", "review_count",
       "description"] := by
  decide

/-- C8 (amended): the extractor is total and pure; its result always
contains the thirteen keys other than `"price"`, contains no key outside
the fourteen, and contains `"price"` exactly when the price section
assigned one (a non-`None` price field, or a numeric substring found in
the combined string). -/
theorem C8_keys_amended (record : Dict) :
    (∀ k ∈ (["url", "source", "title", "currency", "image_urls", "upc", "mpn",
        "seller_name", "itemLocation", "category", "rating", "review_count",
        "description"] : List String),
      k ∈ Dict.keys (extract_deterministic_fields record)) ∧
    (∀ k ∈ Dict.keys (extract_deterministic_fields record),
      k ∈ (["url", "source", "title", "price", "currency", "image_urls", "upc", "mpn",
        "seller_name", "itemLocation", "category", "rating", "review_count",
        "description"] : List String)) ∧
    ("price" ∈ Dict.keys (extract_deterministic_fields record) ↔
      (priceAndCurrency record).1 ≠ []) := by
  have hkeys : Dict.keys (extract_deterministic_fields record) =
      "url" :: "source" :: "title" :: (Dict.keys (priceAndCurrency record).1 ++
        ["currency", "image_urls", "upc", "mpn", "seller_name", "itemLocation",
         "category", "rating", "review_count", "description"]) := by
    unfold extract_deterministic_fields
    dsimp only
    simp [Dict.keys]
  rcases priceAndCurrency_fst_shape record with hp | ⟨v, hp⟩ <;>
    rw [hp] at hkeys <;>
    simp only [Dict.keys, List.map_cons, List.map_nil, List.nil_append,
      List.cons_append] at hkeys <;>
    simp only [Dict.keys] <;>
    rw [hkeys, hp]
  · refine ⟨?_, ?_, by simp⟩
    · intro k hk
      simp only [List.mem_cons, List.not_mem_nil, or_false] at hk ⊢
      tauto
    · intro k hk
      simp only [List.mem_cons, List.not_mem_nil, or_false] at hk ⊢
      tauto
  · refine ⟨?_, ?_, by simp⟩
    · intro k hk
      simp only [List.mem_cons, List.not_mem_nil, or_false] at hk ⊢
      tauto
    · intro k hk
      simp only [List.mem_cons, List.not_mem_nil, or_false] at hk ⊢
      tauto

theorem C8_keys_amended_witness :
    "url" ∈ Dict.keys (extract_deterministic_fields []) :=
  (C8_keys_amended []).1 "url" (by decide)

/-- C9 (counterexample): the claim says the pipeline never mutates a
loaded record; on a record carrying a `"reviews"` key, the mapping handed
to the extractor and emitter is the record with that key deleted, not the
mapping the Loader produced. -/
theorem C9_mutation_counterexample :
    safe_load_json_file "\x7b\"reviews\": 1, \"title\": \"t\"\x7d" =
      [PyVal.dict [("reviews", PyVal.int 1), ("title", PyVal.str "t")]] ∧
    (collectRecords ["\x7b\"reviews\": 1, \"title\": \"t\"\x7d"]).map Prod.snd =
      [[("title", PyVal.str "t")]] ∧
    ¬(collectRecords ["\x7b\"reviews\": 1, \"title\": \"t\"\x7d"]).map Prod.snd =
      [[("reviews", PyVal.int 1), ("title", PyVal.str "t")]] := by
  decide

/-- C9 (amended): each loaded record is mutated exactly once, by deleting
its `"reviews"` key before extraction when present; a record without that
key is passed downstream unmutated, and after the deletion the key is
gone. -/
theorem C9_mutation_amended :
    (∀ (kvs : Dict) (rest : List PyVal),
      prepFile (PyVal.dict kvs :: rest) =
        (extract_deterministic_fields (prepRecord kvs), prepRecord kvs)
          :: prepFile rest) ∧
    (∀ kvs : Dict, Dict.hasKey kvs "reviews" = false → prepRecord kvs = kvs) ∧
    (∀ kvs : Dict, Dict.hasKey kvs "reviews" = true →
      prepRecord kvs = Dict.erase kvs "reviews") ∧
    (∀ kvs : Dict, (Dict.keys kvs).Nodup →
      Dict.hasKey (Dict.erase kvs "reviews") "reviews" = false) := by
  refine ⟨fun kvs rest => rfl, ?_, ?_, ?_⟩
  · intro kvs h
    unfold prepRecord
    rw [h]
    rfl
  · intro kvs h
    unfold prepRecord
    rw [h]
    rfl
  · intro kvs hnd
    induction kvs with
    | nil => rfl
    | cons kv rest ih =>
      obtain ⟨k₀, v₀⟩ := kv
      simp only [Dict.keys, List.map_cons, List.nodup_cons] at hnd
      by_cases h : k₀ = "reviews"
      · subst h
        have he : Dict.erase (("reviews", v₀) :: rest) "reviews" = rest := by
          simp [Dict.erase]
        rw [he, Bool.eq_false_iff]
        intro hc
        exact hnd.1 ((Dict.hasKey_iff_mem_keys rest "reviews").mp hc)
      · have he : Dict.erase ((k₀, v₀) :: rest) "reviews"
            = (k₀, v₀) :: Dict.erase rest "reviews" := by
          simp [Dict.erase, h]
        have hh : Dict.hasKey ((k₀, v₀) :: Dict.erase rest "reviews") "reviews"
            = Dict.hasKey (Dict.erase rest "reviews") "reviews" := by
          simp [Dict.hasKey, h]
        rw [he, hh]
        exact ih hnd.2

theorem C9_mutation_amended_witness :
    prepRecord [("reviews", PyVal.int 1), ("title", PyVal.str "t")] =
      Dict.erase [("reviews", PyVal.int 1), ("title", PyVal.str "t")] "reviews" :=
  C9_mutation_amended.2.2.1 [("reviews", PyVal.int 1), ("title", PyVal.str "t")]
    (by decide)

/-- C10: `normalize_records` exits with status 0 immediately after
writing the batch JSONL: its outcome never depends on the model-completion
oracle, no CSV rows are ever produced by this entry point, and the JSONL
written is exactly the Batch Request Emitter's output on the collected
records. -/
theorem C10_exit_before_sync (instruction : String) (header : List String)
    (files : List String) (oracle oracle' : Nat → Except Unit String) :
    normalize_records instruction header files oracle =
      normalize_records instruction header files oracle' ∧
    (normalize_records instruction header files oracle).csvRows = [] ∧
    (normalize_records instruction header files oracle).exitCode = some 0 ∧
    (normalize_records instruction header files oracle).jsonlLines =
      write_batch_jsonl instruction (collectRecords files) :=
  ⟨rfl, rfl, rfl, rfl⟩

end Ecom
